import Mathlib

/-!
# Verification of the fantasy-draft core (snake order, roster filter, recommendation,
# draft state machine)

Shallow embedding of the draft logic of this repository:

* `src/lib/domain/Pro.ts` — the `Pro` domain class (gender, rating, active flag);
* `src/lib/domain/FantasyTeam.ts` — `SnakeDraftOrder`, `DraftRules`,
  `DraftRecommendation`;
* `src/lib/data/repos/*` — the repositories, modelled as pure functions over an
  explicit `World` record holding the persisted collections;
* `src/lib/usecases/fantasy-team.usecases.ts` — `getDraftState`, `getDraftOptions`,
  `makeDraftPick`, `autoPickOnTimeout`.

Conventions of the embedding:

* JavaScript `number` arithmetic on pick counters is embedded as exact `Nat`
  arithmetic (`Math.ceil(p / pc)` becomes `(p + pc - 1) / pc`, which agrees with the
  real ceiling for `pc ≥ 1`); ratings (`z.number().min(0).max(100)`, possibly
  fractional) are embedded as `ℚ`.
* `Array.prototype.sort` is specified by ECMAScript to be a stable sort; it is
  embedded as `List.insertionSort`, which is stable.
* async/await plus thrown exceptions become `Except`: every `throw` in the source
  happens before the first repository write of the relevant use case, so an
  `.error` result carries no state change.
* DB record ids for teams are backend-generated strings with no structure; they are
  embedded as `Nat` drawn from a fresh-id counter.
* `DraftPickRepo.getByLeagueId` sorts by `pick_number`; the draft logic only uses
  the length of that list and membership of its `pro_id` projection, both invariant
  under reordering, so the embedding keeps picks in insertion order.
-/

namespace FantasyDraft


/-! # Definitions -/

/-- `GenderEnum = z.enum(['male', 'female'])` from `pro.schema.ts`. -/
inductive Gender where
  | male
  | female
deriving DecidableEq

/-- The `Pro` domain class (`src/lib/domain/Pro.ts`): id, gender, optional rating,
active flag.  Name and display fields are dropped: the draft logic never reads them. -/
structure Pro where
  id : String
  gender : Gender
  rating : Option ℚ
  active : Bool
deriving DecidableEq

/-- `Pro.isMale`: `this.gender === 'male'`. -/
def Pro.isMale (p : Pro) : Bool :=
  p.gender == Gender.male

/-- `Pro.isFemale`: `this.gender === 'female'`. -/
def Pro.isFemale (p : Pro) : Bool :=
  p.gender == Gender.female

/-- The value `p.rating ?? 0` used by the recommendation comparator. -/
def Pro.ratingVal (p : Pro) : ℚ :=
  p.rating.getD 0

/-- The result record of `SnakeDraftOrder.getPositionForPick`. -/
structure PickPosition where
  round : Nat
  positionInRound : Nat
  draftPosition : Nat
deriving DecidableEq

/-- `SnakeDraftOrder.getPositionForPick` (`FantasyTeam.ts`):

```
const round = Math.ceil(pickNumber / participantCount);
const positionInRound = ((pickNumber - 1) % participantCount) + 1;
const isEvenRound = round % 2 === 0;
const draftPosition = isEvenRound ? participantCount - positionInRound + 1 : positionInRound;
```

`Math.ceil` on the exact quotient is `(pickNumber + participantCount - 1) / participantCount`
in `Nat` division (for `participantCount ≥ 1`). -/
def getPositionForPick (pickNumber participantCount : Nat) : PickPosition :=
  let round := (pickNumber + participantCount - 1) / participantCount
  let positionInRound := (pickNumber - 1) % participantCount + 1
  let isEvenRound := round % 2 == 0
  let draftPosition := if isEvenRound then participantCount - positionInRound + 1 else positionInRound
  { round := round, positionInRound := positionInRound, draftPosition := draftPosition }

/-- `SnakeDraftOrder.getNextPickForPosition` (`FantasyTeam.ts`): scan pick numbers
`currentPick .. participantCount * totalRounds` and return the first whose
`draftPosition` matches, else `null`.  The `for` loop is embedded as `find?` over
the corresponding `range'`. -/
def getNextPickForPosition (draftPosition participantCount currentPick totalRounds : Nat) :
    Option Nat :=
  let totalPicks := participantCount * totalRounds
  (List.range' currentPick (totalPicks + 1 - currentPick)).find?
    (fun pick => (getPositionForPick pick participantCount).draftPosition == draftPosition)

/-- `DraftRules.filterAvailablePros` (`FantasyTeam.ts`).  The source declares
`maxMales = 2, maxFemales = 2` as default parameters; every caller in the
repository uses the defaults, and call sites below pass `2 2` explicitly.

```
if (roundNumber <= 2) return availablePros;
const maleCount = currentRoster.filter(p => p.isMale).length;
const femaleCount = currentRoster.filter(p => p.isFemale).length;
if (maleCount >= maxMales) return availablePros.filter(p => p.isFemale);
if (femaleCount >= maxFemales) return availablePros.filter(p => p.isMale);
return availablePros;
``` -/
def filterAvailablePros (availablePros currentRoster : List Pro) (roundNumber : Nat)
    (maxMales maxFemales : Nat) : List Pro :=
  if roundNumber ≤ 2 then availablePros
  else
    let maleCount := (currentRoster.filter (fun p => p.isMale)).length
    let femaleCount := (currentRoster.filter (fun p => p.isFemale)).length
    if maleCount ≥ maxMales then availablePros.filter (fun p => p.isFemale)
    else if femaleCount ≥ maxFemales then availablePros.filter (fun p => p.isMale)
    else availablePros

/-- `DraftRules.validatePick` (`FantasyTeam.ts`): `null` for a legal pick, an error
message otherwise.

```
const pro = availablePros.find(p => p.id === proId);
if (!pro) return 'Pro is not available';
const filtered = DraftRules.filterAvailablePros(availablePros, currentRoster, roundNumber);
if (!filtered.some(p => p.id === proId)) return 'Pro does not meet roster composition requirements';
return null;
``` -/
def validatePick (proId : String) (availablePros currentRoster : List Pro)
    (roundNumber : Nat) : Option String :=
  match availablePros.find? (fun p => p.id == proId) with
  | none => some "Pro is not available"
  | some _ =>
    let filtered := filterAvailablePros availablePros currentRoster roundNumber 2 2
    if filtered.any (fun p => p.id == proId) then none
    else some "Pro does not meet roster composition requirements"

/-- The ordering used by the recommendation sort comparator
`(a, b) => (b.rating ?? 0) - (a.rating ?? 0)`: `a` may be placed before `b`
exactly when the comparator is `≤ 0`, i.e. when `b`'s rating is `≤` `a`'s. -/
def ratingGE (a b : Pro) : Prop :=
  Pro.ratingVal b ≤ Pro.ratingVal a

instance : DecidableRel ratingGE :=
  fun a b => show Decidable (Pro.ratingVal b ≤ Pro.ratingVal a) from inferInstance

instance : IsTotal Pro ratingGE :=
  ⟨fun a b => le_total (Pro.ratingVal b) (Pro.ratingVal a)⟩

instance : IsTrans Pro ratingGE :=
  ⟨fun _ _ _ hab hbc => le_trans hbc hab⟩

/-- `DraftRecommendation.getRecommendation` (`FantasyTeam.ts`):

```
const filtered = DraftRules.filterAvailablePros(availablePros, currentRoster, roundNumber);
if (filtered.length === 0) return null;
const sorted = [...filtered].sort((a, b) => (b.rating ?? 0) - (a.rating ?? 0));
return sorted[0];
```

The stable descending-by-rating sort is embedded as `insertionSort ratingGE`. -/
def getRecommendation (availablePros currentRoster : List Pro) (roundNumber : Nat) :
    Option Pro :=
  let filtered := filterAvailablePros availablePros currentRoster roundNumber 2 2
  if filtered.isEmpty then none
  else (List.insertionSort ratingGE filtered).head?

/-! ## The draft state machine

The use cases in `fantasy-team.usecases.ts` read and write five PocketBase
collections through the repositories.  They are embedded as an explicit `World`
record for a single league (every query in the use cases filters on one
`league_id`, so other leagues are irrelevant to a run). -/

/-- `FantasyLeagueStatusEnum = z.enum(['setup', 'drafting', 'active', 'complete'])`. -/
inductive LeagueStatus where
  | setup
  | drafting
  | active
  | complete
deriving DecidableEq

/-- The fields of `FantasyLeagueSchema` read by the draft use cases. -/
structure League where
  status : LeagueStatus
  draft_rounds : Nat
deriving DecidableEq

/-- The fields of `FantasyParticipantSchema` read by the draft use cases
(`draft_position` is optional in the schema). -/
structure Participant where
  id : String
  user_id : String
  display_name : String
  draft_position : Option Nat
deriving DecidableEq

/-- `DraftPickSchema` minus the record id and the `picked_at` timestamp (both are
generated by the backend and never read by the draft logic). -/
structure DraftPickRec where
  participant_id : String
  pro_id : String
  round_number : Nat
  pick_number : Nat
  auto_picked : Bool
deriving DecidableEq

/-- `FantasyTeamSchema` minus name/audit fields; the record id is a backend
generated id, embedded as a `Nat`. -/
structure Team where
  id : Nat
  participant_id : String
  pro_ids : List String
deriving DecidableEq

/-- The persisted collections touched by the draft use cases, for one league.
`nextTeamId` models the backend's fresh-id generator for `fantasy_teams`. -/
structure World where
  league : League
  participants : List Participant
  pros : List Pro
  teams : List Team
  picks : List DraftPickRec
  nextTeamId : Nat
deriving DecidableEq

/-- `DraftPickRepo.create` (`fantasy-team.repo.ts`): an unconditional
`pb.collection('draft_picks').create(...)` — the record is appended as given,
with no uniqueness check of any kind on `pick_number`. -/
def DraftPickRepo.create (picks : List DraftPickRec) (data : DraftPickRec) :
    List DraftPickRec :=
  picks ++ [data]

/-- `ProRepo.getByIds` (`pro.repo.ts`): empty input short-circuits to `[]`,
otherwise the store is filtered by an `id = ... || id = ...` disjunction (store
order). -/
def ProRepo.getByIds (w : World) (ids : List String) : List Pro :=
  if ids.isEmpty then []
  else w.pros.filter (fun p => ids.contains p.id)

/-- `ProRepo.getActive` (`pro.repo.ts`): filter `active = true`. -/
def ProRepo.getActive (w : World) : List Pro :=
  w.pros.filter (fun p => p.active)

/-- `FantasyTeamRepo.getByParticipantId`: first record with the given
`participant_id`, or `null`. -/
def FantasyTeamRepo.getByParticipantId (w : World) (participantId : String) : Option Team :=
  w.teams.find? (fun t => t.participant_id == participantId)

/-- `FantasyParticipantRepo.getById`: the record with the given id, else a
`NotFoundError`.  Embedded as `find?` on the participant collection. -/
def FantasyParticipantRepo.getById (w : World) (id : String) : Option Participant :=
  w.participants.find? (fun p => p.id == id)

/-- The error classes of `src/lib/core/errors.ts` thrown by the draft use cases,
carrying their message (for `NotFoundError`, entity and id). -/
inductive AppError where
  | validation (msg : String)
  | invalidState (msg : String)
  | unauthorized (msg : String)
  | notFound (entity id : String)
deriving DecidableEq

/-- `DraftState` (`fantasy-team.schema.ts`) minus `league_id`/`pick_deadline`. -/
structure DraftState where
  current_round : Nat
  current_pick : Nat
  current_participant_id : String
  is_complete : Bool
deriving DecidableEq

/-- `getDraftState` (`fantasy-team.usecases.ts`):

```
const totalPicks = participants.length * league.draft_rounds;
const currentPick = picks.length + 1;
const isComplete = currentPick > totalPicks;
if (isComplete) return { current_round: league.draft_rounds, current_pick: totalPicks,
                         current_participant_id: '', is_complete: true };
const { round, draftPosition } = SnakeDraftOrder.getPositionForPick(currentPick, participants.length);
const onClock = participants.find(p => p.draft_position === draftPosition);
return { current_round: round, current_pick: currentPick,
         current_participant_id: onClock?.id ?? '', is_complete: false };
``` -/
def getDraftState (w : World) : DraftState :=
  let totalPicks := w.participants.length * w.league.draft_rounds
  let currentPick := w.picks.length + 1
  if totalPicks < currentPick then
    { current_round := w.league.draft_rounds, current_pick := totalPicks,
      current_participant_id := "", is_complete := true }
  else
    let pos := getPositionForPick currentPick w.participants.length
    let onClock := w.participants.find? (fun p => p.draft_position == some pos.draftPosition)
    { current_round := pos.round, current_pick := currentPick,
      current_participant_id := (onClock.map (fun p => p.id)).getD "", is_complete := false }

/-- `getFantasyTeam` (`fantasy-team.usecases.ts`), projected to the loaded pros:
`null` when the participant has no team, otherwise the team's `pro_ids` resolved
through `ProRepo.getByIds`. -/
def getFantasyTeamPros (w : World) (participantId : String) : Option (List Pro) :=
  match FantasyTeamRepo.getByParticipantId w participantId with
  | none => none
  | some t => some (ProRepo.getByIds w t.pro_ids)

/-- The roster list the use cases build from `getFantasyTeam`:
`team?.pros ? [...team.pros] : []`. -/
def rosterOf (w : World) (participantId : String) : List Pro :=
  (getFantasyTeamPros w participantId).getD []

/-- The available pool computed inside `getDraftOptions`: active pros minus the
already-drafted ids (`draftedProIds` is a JS `Set`; membership in the set equals
membership in the list of picked `pro_id`s). -/
def availablePool (w : World) : List Pro :=
  let draftedProIds := w.picks.map (fun k => k.pro_id)
  (ProRepo.getActive w).filter (fun p => !(draftedProIds.contains p.id))

/-- The result record of `getDraftOptions`. -/
structure DraftOptions where
  availablePros : List Pro
  filteredPros : List Pro
  recommendation : Option Pro
  currentRound : Nat
deriving DecidableEq

/-- `getDraftOptions` (`fantasy-team.usecases.ts`). -/
def getDraftOptions (w : World) (participantId : String) : DraftOptions :=
  let draftState := getDraftState w
  if draftState.is_complete then
    { availablePros := [], filteredPros := [], recommendation := none,
      currentRound := draftState.current_round }
  else
    let availablePros := availablePool w
    let currentRoster := rosterOf w participantId
    let filteredPros :=
      filterAvailablePros availablePros currentRoster draftState.current_round 2 2
    let recommendation :=
      getRecommendation availablePros currentRoster draftState.current_round
    { availablePros := availablePros, filteredPros := filteredPros,
      recommendation := recommendation, currentRound := draftState.current_round }

/-- The team-update block shared verbatim by `makeDraftPick` and
`autoPickOnTimeout`:

```
let team = await FantasyTeamRepo.getByParticipantId(participantId);
if (!team) team = await FantasyTeamRepo.create({ participant_id, league_id, name });
await FantasyTeamRepo.addPro(team.id, proId);
```

`FantasyTeamRepo.create` inserts a record with fresh id and `pro_ids: []`;
`FantasyTeamRepo.addPro` (`fantasy-team.repo.ts`) re-reads the team by record id
and updates that record with `pro_ids` extended by `proId` — `updateTeamPro`
below is that update. -/
def updateTeamPro (teams : List Team) (tid : Nat) (proId : String) : List Team :=
  teams.map (fun t => if t.id == tid then { t with pro_ids := t.pro_ids ++ [proId] } else t)

def addProToParticipantTeam (w : World) (participantId proId : String) : World :=
  match FantasyTeamRepo.getByParticipantId w participantId with
  | some team =>
    { w with teams := updateTeamPro w.teams team.id proId }
  | none =>
    let team : Team := { id := w.nextTeamId, participant_id := participantId, pro_ids := [] }
    { w with nextTeamId := w.nextTeamId + 1,
             teams := updateTeamPro (w.teams ++ [team]) team.id proId }

/-- `makeDraftPick` (`fantasy-team.usecases.ts`).  All six `throw` sites occur
before `DraftPickRepo.create`, so an error leaves the world untouched; the `.ok`
world is the state after the pick append and the team update. -/
def makeDraftPick (w : World) (participantId proId userId : String) :
    Except AppError World :=
  if w.league.status != LeagueStatus.drafting then
    .error (.invalidState "League is not in drafting phase")
  else
    let draftState := getDraftState w
    if draftState.is_complete then
      .error (.invalidState "Draft is complete")
    else if draftState.current_participant_id != participantId then
      .error (.unauthorized "Not your turn to pick")
    else
      match FantasyParticipantRepo.getById w participantId with
      | none => .error (.notFound "FantasyParticipant" participantId)
      | some participant =>
        if participant.user_id != userId then
          .error (.unauthorized "Not your participant")
        else
          let options := getDraftOptions w participantId
          match validatePick proId options.availablePros (rosterOf w participantId)
              draftState.current_round with
          | some msg => .error (.validation msg)
          | none =>
            let newPick : DraftPickRec :=
              { participant_id := participantId, pro_id := proId,
                round_number := draftState.current_round,
                pick_number := draftState.current_pick, auto_picked := false }
            let w1 := { w with picks := DraftPickRepo.create w.picks newPick }
            .ok (addProToParticipantTeam w1 participantId proId)

/-- `autoPickOnTimeout` (`fantasy-team.usecases.ts`).  Returns `(w, false)` for the
`null` early return on a complete draft (no state change), `(w', true)` after a
committed auto pick. -/
def autoPickOnTimeout (w : World) : Except AppError (World × Bool) :=
  let draftState := getDraftState w
  if draftState.is_complete then
    .ok (w, false)
  else
    let participantId := draftState.current_participant_id
    let options := getDraftOptions w participantId
    match options.recommendation with
    | none => .error (.validation "No available pros to pick")
    | some recommended =>
      match FantasyParticipantRepo.getById w participantId with
      | none => .error (.notFound "FantasyParticipant" participantId)
      | some _ =>
        let newPick : DraftPickRec :=
          { participant_id := participantId, pro_id := recommended.id,
            round_number := draftState.current_round,
            pick_number := draftState.current_pick, auto_picked := true }
        let w1 := { w with picks := DraftPickRepo.create w.picks newPick }
        .ok (addProToParticipantTeam w1 participantId recommended.id, true)

/-! ## Concrete sample data used by witnesses and counterexamples -/

/-- A male pro with the given id and rating. -/
def mkMale (i : String) (r : ℚ) : Pro :=
  { id := i, gender := Gender.male, rating := some r, active := true }

/-- A female pro with the given id and rating. -/
def mkFemale (i : String) (r : ℚ) : Pro :=
  { id := i, gender := Gender.female, rating := some r, active := true }

/-! ## C4: the recommendation selector -/

/-- `p` carries the maximum `rating ?? 0` among the members of `l`. -/
def isMaxRatedIn (l : List Pro) (p : Pro) : Bool :=
  l.all (fun q => Pro.ratingVal q ≤ Pro.ratingVal p)

/-! ## Dissection of the two committing use cases

`committedPick`/`commitPick` name the record and world that `makeDraftPick` /
`autoPickOnTimeout` build on their success path (same `let`s as in the source,
factored out so theorems can refer to the result). -/

/-- The `DraftPickRepo.create` payload of a successful pick commit. -/
def committedPick (w : World) (participantId proId : String) (auto : Bool) : DraftPickRec :=
  { participant_id := participantId, pro_id := proId,
    round_number := (getDraftState w).current_round,
    pick_number := (getDraftState w).current_pick, auto_picked := auto }

/-- The world after the pick append and team update of a successful commit. -/
def commitPick (w : World) (participantId proId : String) (auto : Bool) : World :=
  addProToParticipantTeam
    { w with picks := DraftPickRepo.create w.picks (committedPick w participantId proId auto) }
    participantId proId

/-- A committed-pick record, compactly. -/
def mkPick (pid proId : String) (r n : Nat) (a : Bool) : DraftPickRec :=
  { participant_id := pid, pro_id := proId, round_number := r, pick_number := n,
    auto_picked := a }

/-- A participant record, compactly. -/
def mkParticipant (pid uid name : String) (pos : Option Nat) : Participant :=
  { id := pid, user_id := uid, display_name := name, draft_position := pos }

/-- The deadlock world of concrete scenario B: one participant already holding
two males on the clock in round 3, with only males left in the pool. -/
def autoPickDeadlockWorld : World :=
  { league := { status := LeagueStatus.drafting, draft_rounds := 3 },
    participants := [mkParticipant "P1" "U1" "Alice" (some 1)],
    pros := [mkMale "m1" 90, mkMale "m2" 80, mkMale "m3" 70],
    teams := [{ id := 0, participant_id := "P1", pro_ids := ["m1", "m2"] }],
    picks := [mkPick "P1" "m1" 1 1 false, mkPick "P1" "m2" 2 2 false],
    nextTeamId := 1 }

/-- Decidable equality on `Except` results, for concrete evaluation of the
use cases in witnesses and counterexamples. -/
instance {ε α : Type} [DecidableEq ε] [DecidableEq α] : DecidableEq (Except ε α) := by
  intro a b
  cases a with
  | ok x =>
    cases b with
    | ok y => exact decidable_of_iff (x = y) (by simp)
    | error y => exact isFalse (by simp)
  | error x =>
    cases b with
    | ok y => exact isFalse (by simp)
    | error y => exact decidable_of_iff (x = y) (by simp)

/-- The starting world of the idempotency witness: one participant, two rounds,
two male pros, clean draft. -/
def idempotencyWorld : World :=
  { league := { status := LeagueStatus.drafting, draft_rounds := 2 },
    participants := [mkParticipant "P1" "U1" "Alice" (some 1)],
    pros := [mkMale "m1" 90, mkMale "m2" 80],
    teams := [], picks := [], nextTeamId := 0 }

/-- The world after the first successful pick of the idempotency witness. -/
def idempotencyWorld2 : World :=
  commitPick idempotencyWorld "P1" "m1" false

/-! ## C3: roster caps along committed-pick sequences -/

/-- A committing step of the draft state machine: a successful `makeDraftPick`
or a committing `autoPickOnTimeout`. -/
inductive Commit : World → World → Prop where
  | make (w w2 : World) (pid proId uid : String)
      (h : makeDraftPick w pid proId uid = Except.ok w2) : Commit w w2
  | auto (w w2 : World) (h : autoPickOnTimeout w = Except.ok (w2, true)) : Commit w w2

/-- Worlds reachable from `w0` by committed picks. -/
def Reachable (w0 w : World) : Prop :=
  Relation.ReflTransGen Commit w0 w

/-- The `pro_ids` of the participant's fantasy team (`[]` when no team exists),
i.e. the id list from which the use cases rebuild the roster. -/
def teamProIds (w : World) (pid : String) : List String :=
  ((FantasyTeamRepo.getByParticipantId w pid).map (fun t => t.pro_ids)).getD []

/-- The picks committed by one participant, in commit order. -/
def picksBy (w : World) (pid : String) : List DraftPickRec :=
  w.picks.filter (fun k => k.participant_id == pid)

/-- Number of males on a participant's roster. -/
def maleCountOf (w : World) (pid : String) : Nat :=
  ((rosterOf w pid).filter (fun p => p.isMale)).length

/-- Number of females on a participant's roster. -/
def femaleCountOf (w : World) (pid : String) : Nat :=
  ((rosterOf w pid).filter (fun p => p.isFemale)).length

/-- The draft position on the clock at overall pick `k`. -/
def draftPos (participantCount k : Nat) : Nat :=
  (getPositionForPick k participantCount).draftPosition

/-- How many of the overall picks `1 .. n` belong to draft position `d`. -/
def slotCount (d pc n : Nat) : Nat :=
  (List.range' 1 n).countP (fun j => draftPos pc j == d)

/-- Basic well-formedness of the static collections (DB uniqueness of record
ids; record ids are non-empty strings). -/
structure WorldWF (w : World) : Prop where
  prosNodup : (w.pros.map (fun p => p.id)).Nodup
  partsNodup : (w.participants.map (fun p => p.id)).Nodup
  partsNoEmptyId : ∀ part ∈ w.participants, part.id ≠ ""

/-- A five-round league (the schema allows `draft_rounds` up to 10) with a
single participant: two males then three forced females. -/
def fiveRoundWorld : World :=
  { league := { status := LeagueStatus.drafting, draft_rounds := 5 },
    participants := [mkParticipant "P1" "U1" "Alice" (some 1)],
    pros := [mkMale "m1" 95, mkMale "m2" 94, mkFemale "f1" 60, mkFemale "f2" 50,
      mkFemale "f3" 40],
    teams := [], picks := [], nextTeamId := 0 }

/-- Five consecutive timeout auto-picks in `fiveRoundWorld`. -/
def fiveRoundRun : Except AppError World := do
  let r1 ← autoPickOnTimeout fiveRoundWorld
  let r2 ← autoPickOnTimeout r1.1
  let r3 ← autoPickOnTimeout r2.1
  let r4 ← autoPickOnTimeout r3.1
  let r5 ← autoPickOnTimeout r4.1
  pure r5.1

/-- The inductive invariant of the draft state machine, for a league configured
with at most four rounds. -/
structure Inv (w : World) : Prop where
  roundsLe : w.league.draft_rounds ≤ 4
  prosNodup : (w.pros.map (fun p => p.id)).Nodup
  partsNodup : (w.participants.map (fun p => p.id)).Nodup
  partsNoEmptyId : ∀ part ∈ w.participants, part.id ≠ ""
  teamsPartNodup : (w.teams.map (fun t => t.participant_id)).Nodup
  teamsIdNodup : (w.teams.map (fun t => t.id)).Nodup
  teamsIdLt : ∀ t ∈ w.teams, t.id < w.nextTeamId
  teamPicks : ∀ pid, teamProIds w pid = (picksBy w pid).map (fun k => k.pro_id)
  slotOk : ∀ i (hi : i < w.picks.length), ∃ part ∈ w.participants,
      part.id = (w.picks.get ⟨i, hi⟩).participant_id ∧
      part.draft_position = some (draftPos w.participants.length (i + 1))
  capsOk : ∀ pid, maleCountOf w pid ≤ 2 ∧ femaleCountOf w pid ≤ 2

/-! # Theorems -/

/-! ## C1: the snake-order position formula -/

/-- The ceiling division `(p + pc - 1) / pc` agrees with the rational ceiling
`⌈p / pc⌉` for `pc ≥ 1`. -/
theorem natCeilDiv_eq_ceil (p pc : Nat) (hpc : 1 ≤ pc) :
    (((p + pc - 1) / pc : Nat) : ℤ) = ⌈(p : ℚ) / (pc : ℚ)⌉ := by
  have hpc0 : (0 : ℚ) < (pc : ℚ) := by exact_mod_cast hpc
  have hdm := Nat.div_add_mod (p + pc - 1) pc
  have hmlt : (p + pc - 1) % pc < pc := Nat.mod_lt _ hpc
  have h1 : p ≤ pc * ((p + pc - 1) / pc) := by omega
  have h2 : pc * ((p + pc - 1) / pc) < p + pc := by omega
  have h1q : (p : ℚ) ≤ (pc : ℚ) * (((p + pc - 1) / pc : Nat) : ℚ) := by exact_mod_cast h1
  have h2q : (pc : ℚ) * (((p + pc - 1) / pc : Nat) : ℚ) < (p : ℚ) + (pc : ℚ) := by
    exact_mod_cast h2
  have hle : (p : ℚ) / (pc : ℚ) ≤ (((p + pc - 1) / pc : Nat) : ℚ) := by
    rw [div_le_iff₀ hpc0]
    nlinarith
  have hlt : (((p + pc - 1) / pc : Nat) : ℚ) - 1 < (p : ℚ) / (pc : ℚ) := by
    rw [lt_div_iff₀ hpc0]
    nlinarith
  refine ((Int.ceil_eq_iff).mpr ⟨?_, ?_⟩).symm
  · rw [Int.cast_natCast]
    exact hlt
  · rw [Int.cast_natCast]
    exact hle

/-- Claim C1: for `participantCount ≥ 1` and pick number `p ≥ 1`,
`getPositionForPick` returns `round = ⌈p / participantCount⌉`,
`positionInRound = ((p - 1) mod participantCount) + 1`, and `draftPosition`
equal to `positionInRound` in odd rounds and to
`participantCount - positionInRound + 1` in even rounds; with 6 participants,
pick 7 maps to draft position 6 and pick 12 to draft position 1. -/
theorem getPositionForPick_spec (p pc : Nat) (hpc : 1 ≤ pc) (hp : 1 ≤ p) :
    (((getPositionForPick p pc).round : Nat) : ℤ) = ⌈(p : ℚ) / (pc : ℚ)⌉ ∧
    (getPositionForPick p pc).positionInRound = (p - 1) % pc + 1 ∧
    ((getPositionForPick p pc).round % 2 = 1 →
      (getPositionForPick p pc).draftPosition = (getPositionForPick p pc).positionInRound) ∧
    ((getPositionForPick p pc).round % 2 = 0 →
      (getPositionForPick p pc).draftPosition =
        pc - (getPositionForPick p pc).positionInRound + 1) ∧
    (getPositionForPick 7 6).draftPosition = 6 ∧
    (getPositionForPick 12 6).draftPosition = 1 := by
  have hr : (getPositionForPick p pc).round = (p + pc - 1) / pc := rfl
  refine ⟨natCeilDiv_eq_ceil p pc hpc, rfl, ?_, ?_, by decide, by decide⟩
  · intro hodd
    rw [hr] at hodd
    have hne : ((((p + pc - 1) / pc) % 2) == 0) = false := by
      rw [beq_eq_false_iff_ne]
      omega
    simp only [getPositionForPick, hne, Bool.false_eq_true, if_false]
  · intro heven
    rw [hr] at heven
    have heq : ((((p + pc - 1) / pc) % 2) == 0) = true := by
      rw [beq_iff_eq]
      exact heven
    simp only [getPositionForPick, heq, if_true]

/-- Witness for `getPositionForPick_spec` at `p = 7`, `pc = 6`. -/
theorem getPositionForPick_spec_witness :
    (((getPositionForPick 7 6).round : Nat) : ℤ) = ⌈(7 : ℚ) / (6 : ℚ)⌉ ∧
    (getPositionForPick 7 6).draftPosition = 6 := by
  have h := getPositionForPick_spec 7 6 (by decide) (by decide)
  exact ⟨by exact_mod_cast h.1, h.2.2.2.2.1⟩

/-! ## C2: the roster-composition filter -/

/-- Claim C2: `DraftRules.filterAvailablePros` returns the pool unchanged for
rounds `≤ 2`; otherwise, with at least `maxMales` males on the roster it returns
exactly the female pros of the pool; otherwise, with at least `maxFemales`
females it returns exactly the male pros of the pool; otherwise the pool
unchanged. -/
theorem filterAvailablePros_spec (pool roster : List Pro) (round maxMales maxFemales : Nat) :
    (round ≤ 2 → filterAvailablePros pool roster round maxMales maxFemales = pool) ∧
    (2 < round → maxMales ≤ (roster.filter (fun p => p.isMale)).length →
      filterAvailablePros pool roster round maxMales maxFemales =
        pool.filter (fun p => p.isFemale)) ∧
    (2 < round → (roster.filter (fun p => p.isMale)).length < maxMales →
      maxFemales ≤ (roster.filter (fun p => p.isFemale)).length →
      filterAvailablePros pool roster round maxMales maxFemales =
        pool.filter (fun p => p.isMale)) ∧
    (2 < round → (roster.filter (fun p => p.isMale)).length < maxMales →
      (roster.filter (fun p => p.isFemale)).length < maxFemales →
      filterAvailablePros pool roster round maxMales maxFemales = pool) := by
  refine ⟨fun h => by simp [filterAvailablePros, h], fun h hm => ?_, fun h hm hf => ?_,
    fun h hm hf => ?_⟩
  · simp [filterAvailablePros, Nat.not_le.mpr h, Nat.lt_irrefl, hm]
  · simp [filterAvailablePros, Nat.not_le.mpr h, Nat.not_le.mpr hm, hf]
  · simp [filterAvailablePros, Nat.not_le.mpr h, Nat.not_le.mpr hm, Nat.not_le.mpr hf]

/-- Witness for `filterAvailablePros_spec`: a roster of two males in round 3 with
caps 2/2 filters a mixed pool down to its females. -/
theorem filterAvailablePros_spec_witness :
    filterAvailablePros [mkFemale "f1" 60, mkMale "m3" 70] [mkMale "m1" 90, mkMale "m2" 80] 3 2 2 =
      [mkFemale "f1" 60, mkMale "m3" 70].filter (fun p => p.isFemale) :=
  (filterAvailablePros_spec [mkFemale "f1" 60, mkMale "m3" 70] [mkMale "m1" 90, mkMale "m2" 80]
    3 2 2).2.1 (by decide) (by decide)

/-! ## C8: round trip between `getPositionForPick` and `getNextPickForPosition` -/

/-- Claim C8: for `participantCount ≥ 2`, `totalRounds ≥ 1` and a valid pick
number `p`, searching from `p` for the draft position that `p` itself maps to
returns `p`; and the search returns `null` exactly when no pick number between
the start pick and `participantCount * totalRounds` maps to the requested
position. -/
theorem getNextPickForPosition_roundTrip (pc totalRounds p : Nat) (hpc : 2 ≤ pc)
    (htr : 1 ≤ totalRounds) (hp : 1 ≤ p) (hple : p ≤ pc * totalRounds) :
    getNextPickForPosition (getPositionForPick p pc).draftPosition pc p totalRounds = some p ∧
    (∀ dp c, (∀ k, c ≤ k → k ≤ pc * totalRounds →
        (getPositionForPick k pc).draftPosition ≠ dp) →
      getNextPickForPosition dp pc c totalRounds = none) := by
  constructor
  · show (List.range' p (pc * totalRounds + 1 - p)).find?
      (fun pick => (getPositionForPick pick pc).draftPosition ==
        (getPositionForPick p pc).draftPosition) = some p
    have hn : pc * totalRounds + 1 - p = (pc * totalRounds - p) + 1 := by omega
    rw [hn, List.range'_succ]
    exact List.find?_cons_of_pos _ (beq_self_eq_true _)
  · intro dp c h
    show (List.range' c (pc * totalRounds + 1 - c)).find?
      (fun pick => (getPositionForPick pick pc).draftPosition == dp) = none
    rw [List.find?_eq_none]
    intro x hx
    have hxm := List.mem_range'_1.mp hx
    have : (getPositionForPick x pc).draftPosition ≠ dp := h x hxm.1 (by omega)
    simpa [beq_iff_eq] using this

/-- Witness for `getNextPickForPosition_roundTrip` at `pc = 6`, `totalRounds = 4`,
`p = 7`. -/
theorem getNextPickForPosition_roundTrip_witness :
    getNextPickForPosition (getPositionForPick 7 6).draftPosition 6 7 4 = some 7 :=
  (getNextPickForPosition_roundTrip 6 4 7 (by decide) (by decide) (by decide) (by decide)).1

/-- `find?` only depends on the predicate's values on the list. -/
theorem find?_congr_on (l : List α) (p q : α → Bool) (h : ∀ x ∈ l, p x = q x) :
    l.find? p = l.find? q := by
  induction l with
  | nil => rfl
  | cons a t ih =>
    have ha := h a (List.mem_cons_self a t)
    by_cases hp : p a = true
    · rw [List.find?_cons_of_pos t hp, List.find?_cons_of_pos t (ha ▸ hp)]
    · rw [List.find?_cons_of_neg t hp, List.find?_cons_of_neg t (by rw [← ha]; exact hp)]
      exact ih (fun x hx => h x (List.mem_cons_of_mem a hx))

/-- The head of the stable descending-by-rating sort is the first element of the
input carrying the maximum rating. -/
theorem head?_insertionSort_ratingGE (l : List Pro) :
    (List.insertionSort ratingGE l).head? = l.find? (isMaxRatedIn l) := by
  induction l with
  | nil => rfl
  | cons a l ih =>
    rw [List.insertionSort]
    cases hs : List.insertionSort ratingGE l with
    | nil =>
      have hl : l = [] := by
        have hperm := List.perm_insertionSort ratingGE l
        rw [hs] at hperm
        exact hperm.symm.eq_nil
      subst hl
      simp [List.orderedInsert, isMaxRatedIn]
    | cons b t =>
      rw [hs] at ih
      have hb_max : isMaxRatedIn l b = true := List.find?_some ih.symm
      have hb_mem : b ∈ l := List.mem_of_find?_eq_some ih.symm
      have hb_all : ∀ q ∈ l, Pro.ratingVal q ≤ Pro.ratingVal b := by
        intro q hq
        have := (List.all_eq_true.mp hb_max) q hq
        exact of_decide_eq_true this
      by_cases hab : ratingGE a b
      · have hmax_a : isMaxRatedIn (a :: l) a = true := by
          simp only [isMaxRatedIn, List.all_cons, Bool.and_eq_true, List.all_eq_true]
          exact ⟨by simp, fun q hq => by
            exact decide_eq_true (le_trans (hb_all q hq) hab)⟩
        rw [List.orderedInsert, if_pos hab, List.find?_cons_of_pos l hmax_a]
        rfl
      · have hba : Pro.ratingVal a < Pro.ratingVal b := by
          have := lt_of_not_le (fun hcon => hab hcon)
          exact this
        have hmax_a : ¬ (isMaxRatedIn (a :: l) a = true) := by
          simp only [isMaxRatedIn, List.all_cons, Bool.and_eq_true, List.all_eq_true]
          rintro ⟨-, hall⟩
          have := of_decide_eq_true (hall b hb_mem)
          exact absurd this (not_le.mpr hba)
        have hcongr : ∀ x ∈ l, isMaxRatedIn (a :: l) x = isMaxRatedIn l x := by
          intro x hx
          by_cases hml : isMaxRatedIn l x = true
          · have hx_all : ∀ q ∈ l, Pro.ratingVal q ≤ Pro.ratingVal x := by
              intro q hq
              exact of_decide_eq_true ((List.all_eq_true.mp hml) q hq)
            have hbx : Pro.ratingVal b ≤ Pro.ratingVal x := hx_all b hb_mem
            have hax : Pro.ratingVal a ≤ Pro.ratingVal x := le_of_lt (lt_of_lt_of_le hba hbx)
            rw [hml]
            simp only [isMaxRatedIn, List.all_cons, Bool.and_eq_true, List.all_eq_true]
            exact ⟨decide_eq_true hax, fun q hq => decide_eq_true (hx_all q hq)⟩
          · have : ¬ (isMaxRatedIn (a :: l) x = true) := by
              simp only [isMaxRatedIn, List.all_cons, Bool.and_eq_true, List.all_eq_true] at hml ⊢
              rintro ⟨-, hall⟩
              exact hml hall
            rw [Bool.not_eq_true] at hml this
            rw [hml, this]
        rw [List.orderedInsert, if_neg hab, List.find?_cons_of_neg l hmax_a,
          find?_congr_on l _ _ hcongr, ← ih]
        rfl

/-- `getRecommendation` rephrased through the first-maximum search. -/
theorem getRecommendation_eq_find? (avail roster : List Pro) (round : Nat) :
    getRecommendation avail roster round =
      (filterAvailablePros avail roster round 2 2).find?
        (isMaxRatedIn (filterAvailablePros avail roster round 2 2)) := by
  unfold getRecommendation
  cases hf : filterAvailablePros avail roster round 2 2 with
  | nil => rfl
  | cons b t =>
    rw [if_neg (by simp)]
    exact head?_insertionSort_ratingGE (b :: t)

/-- Claim C4: the recommendation is `null` iff the filtered pool is empty, and
otherwise it is the first player of the filtered pool (in input order) whose
`rating ?? 0` is maximal — captured by equality with `find? (isMaxRatedIn ...)`;
in particular, with two players both rated 90 in order `[P1, P2]`, `P1` is
returned. -/
theorem getRecommendation_spec :
    (∀ avail roster round, getRecommendation avail roster round =
      (filterAvailablePros avail roster round 2 2).find?
        (isMaxRatedIn (filterAvailablePros avail roster round 2 2))) ∧
    (∀ avail roster round,
      (getRecommendation avail roster round = none ↔
        filterAvailablePros avail roster round 2 2 = [])) ∧
    getRecommendation [mkMale "p1" 90, mkMale "p2" 90] [] 1 = some (mkMale "p1" 90) := by
  refine ⟨getRecommendation_eq_find?, fun avail roster round => ?_, by decide⟩
  unfold getRecommendation
  cases hf : filterAvailablePros avail roster round 2 2 with
  | nil => simp
  | cons b t =>
    rw [if_neg (by simp)]
    constructor
    · intro hnone
      have hperm := List.perm_insertionSort ratingGE (b :: t)
      rw [List.head?_eq_none_iff.mp hnone] at hperm
      exact absurd hperm.symm.eq_nil (by simp)
    · intro hcon
      exact absurd hcon (by simp)

theorem addProToParticipantTeam_league (w : World) (pid proId : String) :
    (addProToParticipantTeam w pid proId).league = w.league := by
  unfold addProToParticipantTeam
  cases FantasyTeamRepo.getByParticipantId w pid <;> rfl

theorem addProToParticipantTeam_participants (w : World) (pid proId : String) :
    (addProToParticipantTeam w pid proId).participants = w.participants := by
  unfold addProToParticipantTeam
  cases FantasyTeamRepo.getByParticipantId w pid <;> rfl

theorem addProToParticipantTeam_pros (w : World) (pid proId : String) :
    (addProToParticipantTeam w pid proId).pros = w.pros := by
  unfold addProToParticipantTeam
  cases FantasyTeamRepo.getByParticipantId w pid <;> rfl

theorem addProToParticipantTeam_picks (w : World) (pid proId : String) :
    (addProToParticipantTeam w pid proId).picks = w.picks := by
  unfold addProToParticipantTeam
  cases FantasyTeamRepo.getByParticipantId w pid <;> rfl

theorem commitPick_league (w : World) (pid proId : String) (a : Bool) :
    (commitPick w pid proId a).league = w.league := by
  unfold commitPick
  rw [addProToParticipantTeam_league]

theorem commitPick_participants (w : World) (pid proId : String) (a : Bool) :
    (commitPick w pid proId a).participants = w.participants := by
  unfold commitPick
  rw [addProToParticipantTeam_participants]

theorem commitPick_pros (w : World) (pid proId : String) (a : Bool) :
    (commitPick w pid proId a).pros = w.pros := by
  unfold commitPick
  rw [addProToParticipantTeam_pros]

theorem commitPick_picks (w : World) (pid proId : String) (a : Bool) :
    (commitPick w pid proId a).picks = w.picks ++ [committedPick w pid proId a] := by
  unfold commitPick
  rw [addProToParticipantTeam_picks]
  rfl

/-- `validatePick` rewritten as a decision on the two membership conditions it
checks, in order. -/
theorem validatePick_eq (proId : String) (avail roster : List Pro) (round : Nat) :
    validatePick proId avail roster round =
      if ∃ x ∈ avail, x.id = proId then
        if ∃ x ∈ filterAvailablePros avail roster round 2 2, x.id = proId then none
        else some "Pro does not meet roster composition requirements"
      else some "Pro is not available" := by
  unfold validatePick
  cases hf : avail.find? (fun p => p.id == proId) with
  | none =>
    have hne : ¬ ∃ x ∈ avail, x.id = proId := by
      rintro ⟨x, hx, hxid⟩
      have := List.find?_eq_none.mp hf x hx
      simp [hxid] at this
    rw [if_neg hne]
  | some pro =>
    have hmem := List.mem_of_find?_eq_some hf
    have hid : pro.id = proId := by
      have := List.find?_some hf
      simpa [beq_iff_eq] using this
    have hex : ∃ x ∈ avail, x.id = proId := ⟨pro, hmem, hid⟩
    rw [if_pos hex]
    by_cases hfl : ∃ x ∈ filterAvailablePros avail roster round 2 2, x.id = proId
    · rw [if_pos hfl]
      obtain ⟨x, hx, hxid⟩ := hfl
      have hany : (filterAvailablePros avail roster round 2 2).any (fun p => p.id == proId) = true :=
        List.any_eq_true.mpr ⟨x, hx, by simp [hxid]⟩
      simp only [hany, if_true]
    · rw [if_neg hfl]
      have hany : (filterAvailablePros avail roster round 2 2).any (fun p => p.id == proId) = false := by
        rw [← Bool.not_eq_true, List.any_eq_true]
        rintro ⟨x, hx, hxid⟩
        exact hfl ⟨x, hx, by simpa [beq_iff_eq] using hxid⟩
      simp only [hany, Bool.false_eq_true, if_false]

/-- `getDraftOptions` on a non-complete draft, componentwise. -/
theorem getDraftOptions_not_complete (w : World) (pid : String)
    (h : (getDraftState w).is_complete = false) :
    getDraftOptions w pid =
      { availablePros := availablePool w,
        filteredPros := filterAvailablePros (availablePool w) (rosterOf w pid)
          (getDraftState w).current_round 2 2,
        recommendation := getRecommendation (availablePool w) (rosterOf w pid)
          (getDraftState w).current_round,
        currentRound := (getDraftState w).current_round } := by
  unfold getDraftOptions
  rw [if_neg (by rw [h]; exact Bool.false_ne_true)]

/-- `makeDraftPick` as the ordered decision chain of its six preconditions:
each check in source order, each failure its own typed error, commit only when
all pass. -/
theorem makeDraftPick_eq (w : World) (pid proId uid : String) :
    makeDraftPick w pid proId uid =
      if w.league.status ≠ LeagueStatus.drafting then
        Except.error (AppError.invalidState "League is not in drafting phase")
      else if (getDraftState w).is_complete = true then
        Except.error (AppError.invalidState "Draft is complete")
      else if (getDraftState w).current_participant_id ≠ pid then
        Except.error (AppError.unauthorized "Not your turn to pick")
      else
        match FantasyParticipantRepo.getById w pid with
        | none => Except.error (AppError.notFound "FantasyParticipant" pid)
        | some participant =>
          if participant.user_id ≠ uid then
            Except.error (AppError.unauthorized "Not your participant")
          else if ¬ (∃ x ∈ availablePool w, x.id = proId) then
            Except.error (AppError.validation "Pro is not available")
          else if ¬ (∃ x ∈ filterAvailablePros (availablePool w) (rosterOf w pid)
              (getDraftState w).current_round 2 2, x.id = proId) then
            Except.error (AppError.validation "Pro does not meet roster composition requirements")
          else Except.ok (commitPick w pid proId false) := by
  unfold makeDraftPick
  by_cases h1 : w.league.status = LeagueStatus.drafting
  · have e1 : (w.league.status != LeagueStatus.drafting) = false := by simp [h1]
    rw [e1, if_neg Bool.false_ne_true, if_neg (not_not_intro h1)]
    by_cases h2 : (getDraftState w).is_complete = true
    · rw [if_pos h2, if_pos h2]
    · have h2f : (getDraftState w).is_complete = false := by
        rw [Bool.not_eq_true] at h2
        exact h2
      rw [if_neg h2, if_neg h2]
      by_cases h3 : (getDraftState w).current_participant_id = pid
      · have e3 : ((getDraftState w).current_participant_id != pid) = false := by simp [h3]
        rw [e3, if_neg Bool.false_ne_true, if_neg (not_not_intro h3)]
        cases hp : FantasyParticipantRepo.getById w pid with
        | none => rfl
        | some participant =>
          dsimp only
          by_cases h4 : participant.user_id = uid
          · have e4 : (participant.user_id != uid) = false := by simp [h4]
            rw [e4, if_neg Bool.false_ne_true, if_neg (not_not_intro h4)]
            have hA : (getDraftOptions w pid).availablePros = availablePool w := by
              rw [getDraftOptions_not_complete w pid h2f]
            rw [hA, validatePick_eq]
            by_cases h5 : ∃ x ∈ availablePool w, x.id = proId
            · rw [if_pos h5, if_neg (not_not_intro h5)]
              by_cases h6 : ∃ x ∈ filterAvailablePros (availablePool w) (rosterOf w pid)
                  (getDraftState w).current_round 2 2, x.id = proId
              · rw [if_pos h6, if_neg (not_not_intro h6)]
                rfl
              · rw [if_neg h6, if_pos h6]
            · rw [if_neg h5, if_pos h5]
          · have e4 : (participant.user_id != uid) = true := by simp [bne_iff_ne, h4]
            rw [e4, if_pos rfl, if_pos h4]
      · have e3 : ((getDraftState w).current_participant_id != pid) = true := by
          simp [bne_iff_ne, h3]
        rw [e3, if_pos rfl, if_pos h3]
  · have e1 : (w.league.status != LeagueStatus.drafting) = true := by simp [bne_iff_ne, h1]
    rw [e1, if_pos rfl, if_pos h1]

/-- `autoPickOnTimeout` as its decision chain: early `null` return on a complete
draft, fatal validation error on an empty recommendation, otherwise exactly one
auto-picked commit for the participant on the clock. -/
theorem autoPickOnTimeout_eq (w : World) :
    autoPickOnTimeout w =
      if (getDraftState w).is_complete = true then Except.ok (w, false)
      else
        match getRecommendation (availablePool w)
            (rosterOf w (getDraftState w).current_participant_id)
            (getDraftState w).current_round with
        | none => Except.error (AppError.validation "No available pros to pick")
        | some recommended =>
          match FantasyParticipantRepo.getById w (getDraftState w).current_participant_id with
          | none => Except.error (AppError.notFound "FantasyParticipant"
              (getDraftState w).current_participant_id)
          | some _ => Except.ok
              (commitPick w (getDraftState w).current_participant_id recommended.id true, true) := by
  unfold autoPickOnTimeout
  by_cases h2 : (getDraftState w).is_complete = true
  · rw [if_pos h2, if_pos h2]
  · have h2f : (getDraftState w).is_complete = false := by
      rw [Bool.not_eq_true] at h2
      exact h2
    rw [if_neg h2, if_neg h2]
    dsimp only
    have hR : (getDraftOptions w (getDraftState w).current_participant_id).recommendation =
        getRecommendation (availablePool w)
          (rosterOf w (getDraftState w).current_participant_id)
          (getDraftState w).current_round := by
      rw [getDraftOptions_not_complete w _ h2f]
    rw [hR]
    cases hrec : getRecommendation (availablePool w)
        (rosterOf w (getDraftState w).current_participant_id)
        (getDraftState w).current_round with
    | none => rfl
    | some recommended =>
      dsimp only
      cases hp : FantasyParticipantRepo.getById w (getDraftState w).current_participant_id with
      | none => rfl
      | some participant => rfl

/-- Inversion of a successful `makeDraftPick`: all six checks passed and the
result is the committed world. -/
theorem makeDraftPick_ok_inv (w : World) (pid proId uid : String) (w2 : World)
    (hok : makeDraftPick w pid proId uid = Except.ok w2) :
    w.league.status = LeagueStatus.drafting ∧
    (getDraftState w).is_complete = false ∧
    (getDraftState w).current_participant_id = pid ∧
    (∃ participant, FantasyParticipantRepo.getById w pid = some participant ∧
      participant.user_id = uid) ∧
    (∃ x ∈ availablePool w, x.id = proId) ∧
    (∃ x ∈ filterAvailablePros (availablePool w) (rosterOf w pid)
      (getDraftState w).current_round 2 2, x.id = proId) ∧
    w2 = commitPick w pid proId false := by
  rw [makeDraftPick_eq] at hok
  by_cases h1 : w.league.status = LeagueStatus.drafting
  · rw [if_neg (not_not_intro h1)] at hok
    by_cases h2 : (getDraftState w).is_complete = true
    · rw [if_pos h2] at hok
      exact absurd hok (by simp)
    · rw [if_neg h2] at hok
      by_cases h3 : (getDraftState w).current_participant_id = pid
      · rw [if_neg (not_not_intro h3)] at hok
        cases hp : FantasyParticipantRepo.getById w pid with
        | none =>
          rw [hp] at hok
          exact absurd hok (by simp)
        | some participant =>
          rw [hp] at hok
          dsimp only at hok
          by_cases h4 : participant.user_id = uid
          · rw [if_neg (not_not_intro h4)] at hok
            by_cases h5 : ∃ x ∈ availablePool w, x.id = proId
            · rw [if_neg (not_not_intro h5)] at hok
              by_cases h6 : ∃ x ∈ filterAvailablePros (availablePool w) (rosterOf w pid)
                  (getDraftState w).current_round 2 2, x.id = proId
              · rw [if_neg (not_not_intro h6)] at hok
                have h2f : (getDraftState w).is_complete = false := by
                  rw [Bool.not_eq_true] at h2
                  exact h2
                have hpart : ∃ part2, some participant = some part2 ∧ part2.user_id = uid :=
                  ⟨participant, rfl, h4⟩
                have hw2 : w2 = commitPick w pid proId false := by
                  simp only [Except.ok.injEq] at hok
                  exact hok.symm
                exact ⟨h1, h2f, h3, hpart, h5, h6, hw2⟩
              · rw [if_pos h6] at hok
                exact absurd hok (by simp)
            · rw [if_pos h5] at hok
              exact absurd hok (by simp)
          · rw [if_pos h4] at hok
            exact absurd hok (by simp)
      · rw [if_pos h3] at hok
        exact absurd hok (by simp)
  · rw [if_pos h1] at hok
    exact absurd hok (by simp)

/-- Inversion of a committing `autoPickOnTimeout`. -/
theorem autoPickOnTimeout_ok_inv (w w2 : World)
    (hok : autoPickOnTimeout w = Except.ok (w2, true)) :
    (getDraftState w).is_complete = false ∧
    (FantasyParticipantRepo.getById w (getDraftState w).current_participant_id).isSome = true ∧
    (∃ x, getRecommendation (availablePool w)
        (rosterOf w (getDraftState w).current_participant_id)
        (getDraftState w).current_round = some x ∧
      w2 = commitPick w (getDraftState w).current_participant_id x.id true) := by
  rw [autoPickOnTimeout_eq] at hok
  by_cases h2 : (getDraftState w).is_complete = true
  · rw [if_pos h2] at hok
    exact absurd hok (by simp)
  · rw [if_neg h2] at hok
    refine ⟨by rw [Bool.not_eq_true] at h2; exact h2, ?_⟩
    cases hrec : getRecommendation (availablePool w)
        (rosterOf w (getDraftState w).current_participant_id)
        (getDraftState w).current_round with
    | none =>
      rw [hrec] at hok
      exact absurd hok (by simp)
    | some recommended =>
      rw [hrec] at hok
      cases hp : FantasyParticipantRepo.getById w (getDraftState w).current_participant_id with
      | none =>
        rw [hp] at hok
        exact absurd hok (by simp)
      | some participant =>
        rw [hp] at hok
        dsimp only at hok
        refine ⟨rfl, recommended, rfl, ?_⟩
        simp only [Except.ok.injEq, Prod.mk.injEq] at hok
        exact hok.1.symm

/-- A member of the available pool has not been drafted yet. -/
theorem mem_availablePool_not_drafted (w : World) (x : Pro) (hx : x ∈ availablePool w) :
    ¬ x.id ∈ w.picks.map (fun k => k.pro_id) := by
  unfold availablePool at hx
  have hpx := List.of_mem_filter hx
  intro hmem
  rw [Bool.not_eq_true'] at hpx
  rw [← List.elem_iff] at hmem
  rw [List.contains] at hpx
  rw [hpx] at hmem
  cases hmem

/-- A non-`null` recommendation is a member of the filtered pool. -/
theorem getRecommendation_mem (avail roster : List Pro) (round : Nat) (x : Pro)
    (h : getRecommendation avail roster round = some x) :
    x ∈ filterAvailablePros avail roster round 2 2 := by
  rw [getRecommendation_eq_find?] at h
  exact List.mem_of_find?_eq_some h

/-! ## C7: order of the `makeDraftPick` preconditions -/

/-- Claim C7: `makeDraftPick` checks, in this order: (1) league status
`drafting` else `InvalidState`, (2) draft not complete else `InvalidState`,
(3) the participant is on the clock else `NotYourTurn` (an `UnauthorizedError`),
(4) the acting user owns the participant (after the repository lookup of the
participant), (5) the player is in the unfiltered available pool else
`PlayerUnavailable` (a `ValidationError`), (6) the player is in the filtered
pool else `PlayerNotAllowed` (a `ValidationError`); each failure is a distinct
typed error and only when every check passes is the pick committed. -/
theorem makeDraftPick_preconditions_in_order (w : World) (pid proId uid : String) :
    makeDraftPick w pid proId uid =
      if w.league.status ≠ LeagueStatus.drafting then
        Except.error (AppError.invalidState "League is not in drafting phase")
      else if (getDraftState w).is_complete = true then
        Except.error (AppError.invalidState "Draft is complete")
      else if (getDraftState w).current_participant_id ≠ pid then
        Except.error (AppError.unauthorized "Not your turn to pick")
      else
        match FantasyParticipantRepo.getById w pid with
        | none => Except.error (AppError.notFound "FantasyParticipant" pid)
        | some participant =>
          if participant.user_id ≠ uid then
            Except.error (AppError.unauthorized "Not your participant")
          else if ¬ (∃ x ∈ availablePool w, x.id = proId) then
            Except.error (AppError.validation "Pro is not available")
          else if ¬ (∃ x ∈ filterAvailablePros (availablePool w) (rosterOf w pid)
              (getDraftState w).current_round 2 2, x.id = proId) then
            Except.error (AppError.validation "Pro does not meet roster composition requirements")
          else Except.ok (commitPick w pid proId false) :=
  makeDraftPick_eq w pid proId uid

/-! ## C5: `autoPickOnTimeout` on an empty vs. non-empty recommendation -/

/-- Claim C5: on a non-complete draft whose on-the-clock participant exists, if
the recommendation is `null` (empty filtered pool) then `autoPickOnTimeout`
raises the no-legal-picks `ValidationError` — committing nothing, since every
`throw` precedes the pick write; otherwise it appends exactly one `DraftPick`,
with `auto_picked = true`, for the participant on the clock. -/
theorem autoPickOnTimeout_spec (w : World)
    (hnc : (getDraftState w).is_complete = false)
    (hpart : ∃ part ∈ w.participants, part.id = (getDraftState w).current_participant_id) :
    ((getDraftOptions w (getDraftState w).current_participant_id).recommendation = none →
      autoPickOnTimeout w = Except.error (AppError.validation "No available pros to pick")) ∧
    (∀ x, (getDraftOptions w (getDraftState w).current_participant_id).recommendation = some x →
      ∃ w2, autoPickOnTimeout w = Except.ok (w2, true) ∧
        w2.picks = w.picks ++ [committedPick w (getDraftState w).current_participant_id x.id true] ∧
        (committedPick w (getDraftState w).current_participant_id x.id true).auto_picked = true ∧
        (committedPick w (getDraftState w).current_participant_id x.id true).participant_id =
          (getDraftState w).current_participant_id) := by
  have hR : (getDraftOptions w (getDraftState w).current_participant_id).recommendation =
      getRecommendation (availablePool w)
        (rosterOf w (getDraftState w).current_participant_id)
        (getDraftState w).current_round := by
    rw [getDraftOptions_not_complete w _ hnc]
  have hEq := autoPickOnTimeout_eq w
  rw [if_neg (by rw [hnc]; exact Bool.false_ne_true)] at hEq
  constructor
  · intro hnone
    rw [hR] at hnone
    rw [hnone] at hEq
    exact hEq
  · intro x hx
    rw [hR] at hx
    rw [hx] at hEq
    obtain ⟨part, hmem, hid⟩ := hpart
    have hfind : (FantasyParticipantRepo.getById w
        (getDraftState w).current_participant_id).isSome = true := by
      unfold FantasyParticipantRepo.getById
      exact List.find?_isSome.mpr ⟨part, hmem, by simp [hid]⟩
    obtain ⟨part2, hp2⟩ := Option.isSome_iff_exists.mp hfind
    rw [hp2] at hEq
    exact ⟨_, hEq, commitPick_picks w _ x.id true, rfl, rfl⟩

/-- Witness for `autoPickOnTimeout_spec`: in `autoPickDeadlockWorld` (two
category-A players on the roster, round 3, caps 2/2, no category-B player in
the pool) the auto pick raises the no-legal-picks error. -/
theorem autoPickOnTimeout_spec_witness :
    autoPickOnTimeout autoPickDeadlockWorld =
      Except.error (AppError.validation "No available pros to pick") :=
  (autoPickOnTimeout_spec autoPickDeadlockWorld (by decide) (by decide)).1 (by decide)

/-! ## C6: repeating an identical successful `makeDraftPick` call -/

/-- Claim C6: if `makeDraftPick` succeeds and the identical call is repeated
against the resulting state, the second call fails (appending nothing, every
error being raised before the pick write): with `NotYourTurn` when the clock has
moved to a different participant id, and with the precondition-5 availability
error when the same participant is still on the clock, the player now being
drafted. -/
theorem makeDraftPick_idempotent (w : World) (pid proId uid : String) (w2 : World)
    (hok : makeDraftPick w pid proId uid = Except.ok w2) :
    (∃ e, makeDraftPick w2 pid proId uid = Except.error e) ∧
    ((getDraftState w2).is_complete = false →
      ((getDraftState w2).current_participant_id ≠ pid →
        makeDraftPick w2 pid proId uid =
          Except.error (AppError.unauthorized "Not your turn to pick")) ∧
      ((getDraftState w2).current_participant_id = pid →
        makeDraftPick w2 pid proId uid =
          Except.error (AppError.validation "Pro is not available"))) := by
  obtain ⟨h1, h2f, h3, ⟨participant, hp, h4⟩, h5, h6, hw2⟩ :=
    makeDraftPick_ok_inv w pid proId uid w2 hok
  have hL : w2.league.status = LeagueStatus.drafting := by
    rw [hw2, commitPick_league]
    exact h1
  have hEq := makeDraftPick_eq w2 pid proId uid
  rw [if_neg (not_not_intro hL)] at hEq
  by_cases hc : (getDraftState w2).is_complete = true
  · rw [if_pos hc] at hEq
    refine ⟨⟨_, hEq⟩, fun hncf => ?_⟩
    rw [hncf] at hc
    cases hc
  · rw [if_neg hc] at hEq
    by_cases hturn : (getDraftState w2).current_participant_id = pid
    · rw [if_neg (not_not_intro hturn)] at hEq
      have hfind2 : FantasyParticipantRepo.getById w2 pid = some participant := by
        unfold FantasyParticipantRepo.getById at hp ⊢
        rw [hw2, commitPick_participants]
        exact hp
      rw [hfind2] at hEq
      dsimp only at hEq
      rw [if_neg (not_not_intro h4)] at hEq
      have hnoav : ¬ ∃ x ∈ availablePool w2, x.id = proId := by
        rintro ⟨x, hx, hxid⟩
        have hnd := mem_availablePool_not_drafted w2 x hx
        apply hnd
        rw [hw2, commitPick_picks, List.map_append, hxid]
        exact List.mem_append_right _ (List.mem_singleton.mpr rfl)
      rw [if_pos hnoav] at hEq
      exact ⟨⟨_, hEq⟩, fun _ => ⟨fun hne => absurd hturn hne, fun _ => hEq⟩⟩
    · rw [if_pos hturn] at hEq
      exact ⟨⟨_, hEq⟩, fun _ => ⟨fun _ => hEq, fun heq => absurd heq hturn⟩⟩

/-- Witness for `makeDraftPick_idempotent`: the first call commits, the repeated
identical call (same participant still on the clock across the snake turn
boundary) fails with the availability error. -/
theorem makeDraftPick_idempotent_witness :
    makeDraftPick idempotencyWorld "P1" "m1" "U1" = Except.ok idempotencyWorld2 ∧
    makeDraftPick idempotencyWorld2 "P1" "m1" "U1" =
      Except.error (AppError.validation "Pro is not available") :=
  ⟨by decide,
    ((makeDraftPick_idempotent idempotencyWorld "P1" "m1" "U1" idempotencyWorld2
      (by decide)).2 (by decide)).2 (by decide)⟩

/-! ## C10: auto picks respect the roster-composition filter -/

/-- Claim C10: a non-`null` `getRecommendation` result is always a member of
`DraftRules.filterAvailablePros` for the same pool, roster and round; hence the
pick committed by `autoPickOnTimeout` — which never calls
`DraftRules.validatePick` — is a player of the filtered pool of the on-the-clock
participant. -/
theorem recommendation_respects_filter :
    (∀ avail roster round x, getRecommendation avail roster round = some x →
      x ∈ filterAvailablePros avail roster round 2 2) ∧
    (∀ w w2, autoPickOnTimeout w = Except.ok (w2, true) →
      ∃ x, x ∈ filterAvailablePros (availablePool w)
          (rosterOf w (getDraftState w).current_participant_id)
          (getDraftState w).current_round 2 2 ∧
        w2.picks = w.picks ++
          [committedPick w (getDraftState w).current_participant_id x.id true]) := by
  refine ⟨fun avail roster round x h => getRecommendation_mem avail roster round x h,
    fun w w2 hok => ?_⟩
  obtain ⟨hnc, hsome, x, hrec, hw2⟩ := autoPickOnTimeout_ok_inv w w2 hok
  exact ⟨x, getRecommendation_mem _ _ _ x hrec, by rw [hw2, commitPick_picks]⟩

/-- Witness for `recommendation_respects_filter`: a singleton pool in round 1. -/
theorem recommendation_respects_filter_witness :
    mkMale "m1" 90 ∈ filterAvailablePros [mkMale "m1" 90] [] 1 2 2 :=
  recommendation_respects_filter.1 [mkMale "m1" 90] [] 1 (mkMale "m1" 90) (by decide)

/-! ## C9: `DraftPickRepo.create` and duplicate pick numbers -/

/-- Claim C9 (against the code): the spec requires `appendPick` to fail with a
`Conflict` when a pick with the same `pick_number` already exists, so that at
most one `DraftPick` in the final sequence carries any given `pick_number`.
`DraftPickRepo.create` performs no such check and cannot fail: appending a
second pick with `pick_number` 1 succeeds and the final sequence holds two
records with `pick_number` 1. -/
theorem draftPickRepo_create_accepts_duplicate_pick_number :
    ((DraftPickRepo.create (DraftPickRepo.create [] (mkPick "P1" "m1" 1 1 false))
        (mkPick "P2" "m2" 1 1 false)).filter
      (fun k => k.pick_number == 1)).length = 2 := by
  decide

/-- Counterexample to claim C3 as stated: committed-pick sequences are not
bounded to four rounds — `draft_rounds` may be up to 10 — and in
`fiveRoundWorld` five committed picks succeed, after which participant `P1`'s
roster holds three females: the female cap 2 is exceeded, and the fifth pick
added a female to a roster whose female count had already reached 2. -/
theorem roster_caps_counterexample :
    (fiveRoundRun.map (fun w => femaleCountOf w "P1")).toOption = some 3 ∧
    (fiveRoundRun.map (fun w => maleCountOf w "P1")).toOption = some 2 ∧
    (fiveRoundRun.map (fun w => w.picks.length)).toOption = some 5 := by
  decide

/-- `getPositionForPick` at pick `pc * r + t` of round `r + 1` (`1 ≤ t ≤ pc`). -/
theorem getPositionForPick_decompose (pc r t : Nat) (hpc : 1 ≤ pc) (ht1 : 1 ≤ t)
    (ht2 : t ≤ pc) :
    getPositionForPick (pc * r + t) pc =
      { round := r + 1, positionInRound := t,
        draftPosition := if (r + 1) % 2 == 0 then pc - t + 1 else t } := by
  have hround : (pc * r + t + pc - 1) / pc = r + 1 := by
    have h1 : pc * r + t + pc - 1 = (t + pc - 1) + pc * r := by
      have hgen : ∀ m : Nat, m + t + pc - 1 = (t + pc - 1) + m := by
        intro m
        omega
      exact hgen (pc * r)
    rw [h1, Nat.add_mul_div_left _ _ (by omega : 0 < pc)]
    have h2 : (t + pc - 1) / pc = 1 := by
      apply Nat.div_eq_of_lt_le
      · omega
      · omega
    omega
  have hpos : (pc * r + t - 1) % pc = t - 1 := by
    have h1 : pc * r + t - 1 = (t - 1) + pc * r := by
      have hgen : ∀ m : Nat, m + t - 1 = (t - 1) + m := by
        intro m
        omega
      exact hgen (pc * r)
    rw [h1, Nat.add_mul_mod_self_left, Nat.mod_eq_of_lt (by omega)]
  show (⟨_, _, _⟩ : PickPosition) = _
  rw [PickPosition.mk.injEq]
  refine ⟨hround, by rw [hpos]; omega, ?_⟩
  rw [hround, hpos]
  have ht : t - 1 + 1 = t := by omega
  rw [ht]

/-- Within one full round, each draft position in `1 .. pc` is on the clock for
exactly one pick. -/
theorem countP_round_slots (pc r d : Nat) (hpc : 1 ≤ pc) :
    (List.range' (pc * r + 1) pc).countP (fun j => draftPos pc j == d) =
      if 1 ≤ d ∧ d ≤ pc then 1 else 0 := by
  rw [List.range'_eq_map_range, List.countP_map]
  have hdp : ∀ i, i < pc → draftPos pc (pc * r + 1 + i) =
      (if (r + 1) % 2 == 0 then pc - (i + 1) + 1 else i + 1) := by
    intro i hi
    have harg : pc * r + 1 + i = pc * r + (i + 1) := by omega
    unfold draftPos
    rw [harg, getPositionForPick_decompose pc r (i + 1) hpc (by omega) (by omega)]
  by_cases hpar : (r + 1) % 2 == 0
  · -- even round: position pc - i at offset i
    have hcong : ∀ i ∈ List.range pc,
        ((fun j => draftPos pc j == d) ∘ (fun x => pc * r + 1 + x)) i =
          (fun i => pc - i == d) i := by
      intro i hi
      have hilt := List.mem_range.mp hi
      simp only [Function.comp]
      rw [hdp i hilt, if_pos hpar]
      have : pc - (i + 1) + 1 = pc - i := by omega
      rw [this]
    rw [List.countP_congr (fun i hi => by rw [hcong i hi])]
    by_cases hd : 1 ≤ d ∧ d ≤ pc
    · rw [if_pos hd]
      have hcong2 : ∀ i ∈ List.range pc, ((fun i => pc - i == d) i = true) ↔
          ((fun i => i == pc - d) i = true) := by
        intro i hi
        have hilt := List.mem_range.mp hi
        simp only [beq_iff_eq]
        omega
      rw [List.countP_congr hcong2, ← List.count_eq_countP]
      exact List.count_eq_one_of_mem (List.nodup_range pc) (List.mem_range.mpr (by omega))
    · rw [if_neg hd]
      rw [List.countP_eq_zero]
      intro i hi
      have hilt := List.mem_range.mp hi
      simp only [beq_iff_eq]
      omega
  · -- odd round: position i + 1 at offset i
    have hcong : ∀ i ∈ List.range pc,
        ((fun j => draftPos pc j == d) ∘ (fun x => pc * r + 1 + x)) i =
          (fun i => i + 1 == d) i := by
      intro i hi
      have hilt := List.mem_range.mp hi
      simp only [Function.comp]
      rw [hdp i hilt, if_neg (by simpa using hpar)]
    rw [List.countP_congr (fun i hi => by rw [hcong i hi])]
    by_cases hd : 1 ≤ d ∧ d ≤ pc
    · rw [if_pos hd]
      have hcong2 : ∀ i ∈ List.range pc, ((fun i => i + 1 == d) i = true) ↔
          ((fun i => i == d - 1) i = true) := by
        intro i hi
        simp only [beq_iff_eq]
        omega
      rw [List.countP_congr hcong2, ← List.count_eq_countP]
      exact List.count_eq_one_of_mem (List.nodup_range pc) (List.mem_range.mpr (by omega))
    · rw [if_neg hd]
      rw [List.countP_eq_zero]
      intro i hi
      have hilt := List.mem_range.mp hi
      simp only [beq_iff_eq]
      omega

/-- Over `R` full rounds, a draft position in range is on the clock `R` times. -/
theorem slotCount_full_rounds (pc R d : Nat) (hpc : 1 ≤ pc) (hd1 : 1 ≤ d) (hd2 : d ≤ pc) :
    slotCount d pc (pc * R) = R := by
  induction R with
  | zero => rfl
  | succ n ih =>
    have hsplit : List.range' 1 (pc * (n + 1)) =
        List.range' 1 (pc * n) ++ List.range' (pc * n + 1) pc := by
      have h := List.range'_append 1 (pc * n) pc 1
      rw [one_mul] at h
      have harg : 1 + pc * n = pc * n + 1 := by omega
      rw [harg] at h
      have harg2 : pc * (n + 1) = pc + pc * n := by ring
      rw [harg2]
      exact h.symm
    unfold slotCount at ih ⊢
    rw [hsplit, List.countP_append, ih, countP_round_slots pc n d hpc,
      if_pos ⟨hd1, hd2⟩]

/-- No earlier pick of the same round as pick `pc * r + q` carries its
draft position. -/
theorem slotCount_sameRound_zero (pc r q : Nat) (hpc : 1 ≤ pc) (hq1 : 1 ≤ q) (hq2 : q ≤ pc) :
    (List.range' (pc * r + 1) (q - 1)).countP
      (fun j => draftPos pc j == draftPos pc (pc * r + q)) = 0 := by
  rw [List.countP_eq_zero]
  intro j hj
  have hjm := List.mem_range'_1.mp hj
  have hxt : ∃ t, 1 ≤ t ∧ t < q ∧ j = pc * r + t := by
    exact ⟨j - pc * r, by omega, by omega, by omega⟩
  obtain ⟨t, ht1, htq, hjt⟩ := hxt
  subst hjt
  unfold draftPos
  rw [getPositionForPick_decompose pc r t hpc ht1 (by omega),
    getPositionForPick_decompose pc r q hpc hq1 hq2]
  simp only [beq_iff_eq]
  by_cases hpar : (r + 1) % 2 = 0
  · rw [if_pos hpar, if_pos hpar]
    omega
  · rw [if_neg hpar, if_neg hpar]
    omega

/-- The draft position of any pick lies in `1 .. pc`. -/
theorem draftPos_mem_range (pc k : Nat) (hpc : 1 ≤ pc) (hk : 1 ≤ k) :
    1 ≤ draftPos pc k ∧ draftPos pc k ≤ pc := by
  have hdecomp : k = pc * ((k - 1) / pc) + ((k - 1) % pc + 1) := by
    have := Nat.div_add_mod (k - 1) pc
    omega
  have hq2 : (k - 1) % pc + 1 ≤ pc := by
    have := Nat.mod_lt (k - 1) (show 0 < pc by omega)
    omega
  unfold draftPos
  rw [hdecomp, getPositionForPick_decompose pc _ _ hpc (by omega) hq2]
  dsimp only
  by_cases hpar : (((k - 1) / pc + 1) % 2 == 0)
  · rw [if_pos hpar]
    omega
  · rw [if_neg hpar]
    omega

/-- Snake-order counting: before pick `k`, the position on the clock at `k` has
been on the clock exactly `round(k) - 1` times. -/
theorem slotCount_before_pick (pc k : Nat) (hpc : 1 ≤ pc) (hk : 1 ≤ k) :
    slotCount (draftPos pc k) pc (k - 1) = (getPositionForPick k pc).round - 1 := by
  have hdm := Nat.div_add_mod (k - 1) pc
  have hmlt := Nat.mod_lt (k - 1) (show 0 < pc by omega)
  have hdecomp : k = pc * ((k - 1) / pc) + ((k - 1) % pc + 1) := by omega
  set r := (k - 1) / pc with hr
  set q := (k - 1) % pc + 1 with hq
  have hq1 : 1 ≤ q := by omega
  have hq2 : q ≤ pc := by omega
  have hround : (getPositionForPick k pc).round = r + 1 := by
    rw [hdecomp, getPositionForPick_decompose pc r q hpc hq1 hq2]
  have hdrange := draftPos_mem_range pc k hpc hk
  have hsplit : List.range' 1 (k - 1) =
      List.range' 1 (pc * r) ++ List.range' (pc * r + 1) (q - 1) := by
    have h := List.range'_append 1 (pc * r) (q - 1) 1
    rw [one_mul] at h
    have harg : 1 + pc * r = pc * r + 1 := by omega
    rw [harg] at h
    have harg2 : k - 1 = q - 1 + pc * r := by omega
    rw [harg2]
    exact h.symm
  unfold slotCount
  rw [hsplit, List.countP_append]
  have hfull : (List.range' 1 (pc * r)).countP (fun j => draftPos pc j == draftPos pc k) =
      r := by
    have := slotCount_full_rounds pc r (draftPos pc k) hpc hdrange.1 hdrange.2
    unfold slotCount at this
    exact this
  have hpart : (List.range' (pc * r + 1) (q - 1)).countP
      (fun j => draftPos pc j == draftPos pc k) = 0 := by
    have := slotCount_sameRound_zero pc r q hpc hq1 hq2
    rw [← hdecomp] at this
    exact this
  rw [hfull, hpart, hround]
  omega

/-- A duplicate-free list is no longer than any list containing it. -/
theorem nodup_length_le_of_subset {l1 l2 : List String} (h1 : l1.Nodup) (hs : l1 ⊆ l2) :
    l1.length ≤ l2.length :=
  calc l1.length = l1.toFinset.card := (List.toFinset_card_of_nodup h1).symm
    _ ≤ l2.toFinset.card := Finset.card_le_card (fun a ha => by
        simp only [List.mem_toFinset] at ha ⊢
        exact hs ha)
    _ ≤ l2.length := List.toFinset_card_le l2

/-- Counting matches in a list is bounded by counting over the index range,
when every match at index `i` makes index `s + i` match. -/
theorem countP_le_countP_range' {α : Type} (l : List α) (p : α → Bool) (q : Nat → Bool)
    (s : Nat) (h : ∀ i (hi : i < l.length), p (l.get ⟨i, hi⟩) = true → q (s + i) = true) :
    l.countP p ≤ (List.range' s l.length).countP q := by
  induction l generalizing s with
  | nil => exact Nat.le_refl 0
  | cons a t ih =>
    rw [List.countP_cons, List.length_cons, List.range'_succ, List.countP_cons]
    have hih := ih (s + 1) (fun i hi hp => by
      have := h (i + 1) (by simpa using Nat.succ_lt_succ hi) (by simpa using hp)
      have harg : s + (i + 1) = s + 1 + i := by omega
      rw [harg] at this
      exact this)
    by_cases hpa : p a = true
    · have hqa : q s = true := by
        have := h 0 (by simp) (by simpa using hpa)
        simpa using this
      rw [hpa, hqa]
      simp only [if_true]
      omega
    · rw [Bool.not_eq_true] at hpa
      rw [hpa]
      simp only [Bool.false_eq_true, if_false, Nat.add_zero]
      by_cases hqa : q s = true
      · rw [hqa]
        simp only [if_true]
        omega
      · rw [Bool.not_eq_true] at hqa
        rw [hqa]
        simp only [Bool.false_eq_true, if_false, Nat.add_zero]
        omega

/-- `ProRepo.getByIds` is the id-membership filter of the store (the empty-ids
short circuit returns the same value). -/
theorem getByIds_eq_filter (w : World) (ids : List String) :
    ProRepo.getByIds w ids = w.pros.filter (fun p => ids.contains p.id) := by
  unfold ProRepo.getByIds
  by_cases hids : ids.isEmpty
  · rw [if_pos hids]
    have hnil : ids = [] := by
      cases ids with
      | nil => rfl
      | cons a t => cases hids
    subst hnil
    symm
    rw [List.filter_eq_nil_iff]
    intro a ha
    simp [List.contains]
  · rw [if_neg hids]

/-- The roster the use cases build is the id-membership filter of the pro store
over the team's `pro_ids`. -/
theorem rosterOf_eq_filter (w : World) (pid : String) :
    rosterOf w pid = w.pros.filter (fun p => (teamProIds w pid).contains p.id) := by
  unfold rosterOf getFantasyTeamPros teamProIds
  cases hf : FantasyTeamRepo.getByParticipantId w pid with
  | none =>
    simp only [Option.map_none, Option.getD_none, Option.getD]
    symm
    rw [List.filter_eq_nil_iff]
    intro a ha
    simp [List.contains]
  | some t =>
    simp only [Option.map_some, Option.getD_some]
    exact getByIds_eq_filter w t.pro_ids

/-- The filtered pool is a sub-collection of the pool. -/
theorem filterAvailablePros_subset (pool roster : List Pro) (round mm mf : Nat) :
    filterAvailablePros pool roster round mm mf ⊆ pool := by
  unfold filterAvailablePros
  by_cases h1 : round ≤ 2
  · rw [if_pos h1]
    exact List.Subset.refl pool
  · rw [if_neg h1]
    by_cases h2 : (roster.filter (fun p => p.isMale)).length ≥ mm
    · rw [if_pos h2]
      exact fun a ha => List.mem_of_mem_filter ha
    · rw [if_neg h2]
      by_cases h3 : (roster.filter (fun p => p.isFemale)).length ≥ mf
      · rw [if_pos h3]
        exact fun a ha => List.mem_of_mem_filter ha
      · rw [if_neg h3]
        exact List.Subset.refl pool

/-- Males and females partition a pro list (the gender tag is binary). -/
theorem maleCount_add_femaleCount (l : List Pro) :
    (l.filter (fun p => p.isMale)).length + (l.filter (fun p => p.isFemale)).length =
      l.length := by
  induction l with
  | nil => rfl
  | cons a t ih =>
    rw [List.filter_cons, List.filter_cons, List.length_cons]
    cases hg : a.gender with
    | male =>
      have hm : a.isMale = true := by simp [Pro.isMale, hg]
      have hf : a.isFemale = false := by simp [Pro.isFemale, hg]
      rw [hm, hf]
      simp only [if_true, Bool.false_eq_true, if_false, List.length_cons]
      omega
    | female =>
      have hm : a.isMale = false := by simp [Pro.isMale, hg]
      have hf : a.isFemale = true := by simp [Pro.isFemale, hg]
      rw [hm, hf]
      simp only [if_true, Bool.false_eq_true, if_false, List.length_cons]
      omega

/-- A female pro is not male. -/
theorem not_isMale_of_isFemale {p : Pro} (h : p.isFemale = true) : p.isMale = false := by
  unfold Pro.isFemale at h
  unfold Pro.isMale
  cases hg : p.gender with
  | male => rw [hg] at h; cases h
  | female => simp [hg]

/-- A male pro is not female. -/
theorem not_isFemale_of_isMale {p : Pro} (h : p.isMale = true) : p.isFemale = false := by
  unfold Pro.isMale at h
  unfold Pro.isFemale
  cases hg : p.gender with
  | male => simp [hg]
  | female => rw [hg] at h; cases h

/-- Appending one fresh id to the id list adds exactly the matching pro to the
id-membership filter of a duplicate-free store, up to permutation. -/
theorem filter_ids_append_perm (pros : List Pro) (ids : List String) (x : Pro)
    (hnodup : (pros.map (fun p => p.id)).Nodup) (hx : x ∈ pros) (hxid : ¬ x.id ∈ ids) :
    (pros.filter (fun p => (ids ++ [x.id]).contains p.id)).Perm
      (x :: pros.filter (fun p => ids.contains p.id)) := by
  induction pros with
  | nil => cases hx
  | cons a t ih =>
    rw [List.map_cons, List.nodup_cons] at hnodup
    obtain ⟨hhead, htail⟩ := hnodup
    by_cases hax : a = x
    · subst hax
      have hcontains1 : ((ids ++ [a.id]).contains a.id) = true := by
        rw [List.contains, List.elem_eq_mem]
        simp
      have hcontains0 : (ids.contains a.id) = false := by
        rw [List.contains, List.elem_eq_mem]
        simpa using hxid
      rw [List.filter_cons, List.filter_cons, hcontains1, hcontains0]
      simp only [if_true, Bool.false_eq_true, if_false]
      have hcong : t.filter (fun p => (ids ++ [a.id]).contains p.id) =
          t.filter (fun p => ids.contains p.id) := by
        apply List.filter_congr
        intro q hq
        have hqid : q.id ≠ a.id := by
          intro hcon
          exact hhead (by rw [← hcon]; exact List.mem_map_of_mem (fun p => p.id) hq)
        rw [List.contains, List.contains, List.elem_eq_mem, List.elem_eq_mem]
        simp only [List.mem_append, List.mem_singleton, decide_eq_decide]
        constructor
        · rintro (h | h)
          · exact h
          · exact absurd h hqid
        · intro h
          exact Or.inl h
      rw [hcong]
    · have hxt : x ∈ t := by
        cases hx with
        | head => exact absurd rfl hax
        | tail _ h => exact h
      have haxid : a.id ≠ x.id := by
        intro hcon
        exact hhead (by rw [hcon]; exact List.mem_map_of_mem (fun p => p.id) hxt)
      have hpa : ((ids ++ [x.id]).contains a.id) = (ids.contains a.id) := by
        rw [List.contains, List.contains, List.elem_eq_mem, List.elem_eq_mem]
        simp only [List.mem_append, List.mem_singleton, decide_eq_decide]
        constructor
        · rintro (h | h)
          · exact h
          · exact absurd h haxid
        · intro h
          exact Or.inl h
      have hiht := ih htail hxt
      rw [List.filter_cons, List.filter_cons, hpa]
      by_cases hmem : (ids.contains a.id) = true
      · rw [hmem]
        simp only [if_true]
        exact (hiht.cons a).trans (List.Perm.swap x a _)
      · rw [Bool.not_eq_true] at hmem
        rw [hmem]
        simp only [Bool.false_eq_true, if_false]
        exact hiht

/-- `updateTeamPro` leaves every `participant_id` unchanged. -/
theorem updateTeamPro_participant_ids (teams : List Team) (tid : Nat) (proId : String) :
    (updateTeamPro teams tid proId).map (fun t => t.participant_id) =
      teams.map (fun t => t.participant_id) := by
  unfold updateTeamPro
  rw [List.map_map]
  apply List.map_congr_left
  intro t ht
  simp only [Function.comp]
  by_cases h : (t.id == tid) = true
  · rw [if_pos h]
  · rw [if_neg h]

/-- `updateTeamPro` leaves every record id unchanged. -/
theorem updateTeamPro_ids (teams : List Team) (tid : Nat) (proId : String) :
    (updateTeamPro teams tid proId).map (fun t => t.id) = teams.map (fun t => t.id) := by
  unfold updateTeamPro
  rw [List.map_map]
  apply List.map_congr_left
  intro t ht
  simp only [Function.comp]
  by_cases h : (t.id == tid) = true
  · rw [if_pos h]
  · rw [if_neg h]

/-- Searching an updated team list by participant finds the updated version of
the record the search would find in the original list. -/
theorem updateTeamPro_find? (teams : List Team) (tid : Nat) (proId q : String) :
    (updateTeamPro teams tid proId).find? (fun t => t.participant_id == q) =
      (teams.find? (fun t => t.participant_id == q)).map
        (fun t => if t.id == tid then { t with pro_ids := t.pro_ids ++ [proId] } else t) := by
  unfold updateTeamPro
  rw [List.find?_map]
  congr 1
  apply find?_congr_on
  intro t ht
  simp only [Function.comp]
  by_cases h : (t.id == tid) = true
  · rw [if_pos h]
  · rw [if_neg h]

/-- Effect of the shared team-update block on each participant's `pro_ids`:
the target participant's list is extended by `proId`, all other participants'
lists are untouched (given unique team record ids below the fresh-id counter). -/
theorem addPro_teamProIds (w : World) (pid proId : String)
    (hIdNodup : (w.teams.map (fun t => t.id)).Nodup)
    (hIdLt : ∀ t ∈ w.teams, t.id < w.nextTeamId) :
    teamProIds (addProToParticipantTeam w pid proId) pid = teamProIds w pid ++ [proId] ∧
    (∀ q, q ≠ pid → teamProIds (addProToParticipantTeam w pid proId) q = teamProIds w q) := by
  unfold addProToParticipantTeam
  cases hf : FantasyTeamRepo.getByParticipantId w pid with
  | some team =>
    have hteam_mem : team ∈ w.teams := List.mem_of_find?_eq_some hf
    have hteam_pid : team.participant_id = pid := by
      have := List.find?_some hf
      simpa [beq_iff_eq] using this
    unfold FantasyTeamRepo.getByParticipantId at hf
    dsimp only
    constructor
    · unfold teamProIds FantasyTeamRepo.getByParticipantId
      dsimp only
      rw [updateTeamPro_find?, hf]
      simp
    · intro q hq
      unfold teamProIds FantasyTeamRepo.getByParticipantId
      dsimp only
      rw [updateTeamPro_find?]
      cases hfq : w.teams.find? (fun t => t.participant_id == q) with
      | none => rfl
      | some tq =>
        have htq_mem : tq ∈ w.teams := List.mem_of_find?_eq_some hfq
        have htq_q : tq.participant_id = q := by
          have := List.find?_some hfq
          simpa [beq_iff_eq] using this
        have hne : tq.id ≠ team.id := by
          intro hcon
          have heq : tq = team := List.inj_on_of_nodup_map hIdNodup htq_mem hteam_mem hcon
          rw [heq] at htq_q
          exact hq (by rw [← htq_q, hteam_pid])
        simp [hne]
  | none =>
    unfold FantasyTeamRepo.getByParticipantId at hf
    have hnone := List.find?_eq_none.mp hf
    dsimp only
    constructor
    · unfold teamProIds FantasyTeamRepo.getByParticipantId
      dsimp only
      rw [updateTeamPro_find?, List.find?_append, hf, Option.none_or]
      rw [List.find?_cons_of_pos _ (by simp)]
      simp
    · intro q hq
      unfold teamProIds FantasyTeamRepo.getByParticipantId
      dsimp only
      rw [updateTeamPro_find?, List.find?_append]
      have hlast : (([({ id := w.nextTeamId, participant_id := pid, pro_ids := [] } : Team)] :
          List Team).find? (fun t => t.participant_id == q)) = none := by
        rw [List.find?_eq_none]
        intro t ht
        rw [List.mem_singleton] at ht
        subst ht
        simpa [beq_iff_eq] using fun hcon => hq hcon.symm
      rw [hlast, Option.or_none]
      cases hfq : w.teams.find? (fun t => t.participant_id == q) with
      | none => rfl
      | some tq =>
        have htq_mem : tq ∈ w.teams := List.mem_of_find?_eq_some hfq
        have hne : tq.id ≠ w.nextTeamId := by
          have := hIdLt tq htq_mem
          omega
        simp [hne]

/-- The shared team-update block preserves the team-collection invariants:
unique participant ids, unique record ids, record ids below the counter. -/
theorem addPro_teams_wf (w : World) (pid proId : String)
    (hPartNodup : (w.teams.map (fun t => t.participant_id)).Nodup)
    (hIdNodup : (w.teams.map (fun t => t.id)).Nodup)
    (hIdLt : ∀ t ∈ w.teams, t.id < w.nextTeamId) :
    ((addProToParticipantTeam w pid proId).teams.map (fun t => t.participant_id)).Nodup ∧
    ((addProToParticipantTeam w pid proId).teams.map (fun t => t.id)).Nodup ∧
    (∀ t ∈ (addProToParticipantTeam w pid proId).teams,
      t.id < (addProToParticipantTeam w pid proId).nextTeamId) := by
  unfold addProToParticipantTeam
  cases hf : FantasyTeamRepo.getByParticipantId w pid with
  | some team =>
    dsimp only
    refine ⟨by rw [updateTeamPro_participant_ids]; exact hPartNodup,
      by rw [updateTeamPro_ids]; exact hIdNodup, ?_⟩
    intro t ht
    unfold updateTeamPro at ht
    obtain ⟨t0, ht0, hmap⟩ := List.mem_map.mp ht
    have hid : t.id = t0.id := by
      rw [← hmap]
      by_cases h : (t0.id == team.id) = true
      · rw [if_pos h]
      · rw [if_neg h]
    rw [hid]
    exact hIdLt t0 ht0
  | none =>
    have hnone := List.find?_eq_none.mp hf
    dsimp only
    have hparts : ((updateTeamPro (w.teams ++ [({ id := w.nextTeamId, participant_id := pid, pro_ids := [] } : Team)]) w.nextTeamId proId).map (fun t => t.participant_id)) = w.teams.map (fun t => t.participant_id) ++ [pid] := by
      rw [updateTeamPro_participant_ids, List.map_append]
      rfl
    have hids : ((updateTeamPro (w.teams ++ [({ id := w.nextTeamId, participant_id := pid, pro_ids := [] } : Team)]) w.nextTeamId proId).map (fun t => t.id)) = w.teams.map (fun t => t.id) ++ [w.nextTeamId] := by
      rw [updateTeamPro_ids, List.map_append]
      rfl
    refine ⟨?_, ?_, ?_⟩
    · rw [hparts, List.nodup_append]
      refine ⟨hPartNodup, List.nodup_singleton pid, ?_⟩
      intro a ha hb
      rw [List.mem_singleton] at hb
      subst hb
      obtain ⟨t0, ht0, hid0⟩ := List.mem_map.mp ha
      exact hnone t0 ht0 (by simp [hid0])
    · rw [hids, List.nodup_append]
      refine ⟨hIdNodup, List.nodup_singleton _, ?_⟩
      intro a ha hb
      rw [List.mem_singleton] at hb
      subst hb
      obtain ⟨t0, ht0, hid0⟩ := List.mem_map.mp ha
      have := hIdLt t0 ht0
      omega
    · intro t ht
      unfold updateTeamPro at ht
      obtain ⟨t0, ht0, hmap⟩ := List.mem_map.mp ht
      have hid : t.id = t0.id := by
        rw [← hmap]
        by_cases h : (t0.id == w.nextTeamId) = true
        · rw [if_pos h]
        · rw [if_neg h]
      rw [List.mem_append] at ht0
      rw [hid]
      cases ht0 with
      | inl h => have := hIdLt t0 h; omega
      | inr h =>
        rw [List.mem_singleton] at h
        subst h
        exact Nat.lt_succ_self _

/-- `getDraftState` on a non-complete draft, componentwise. -/
theorem getDraftState_not_complete (w : World)
    (h : (getDraftState w).is_complete = false) :
    (getDraftState w).current_round =
      (getPositionForPick (w.picks.length + 1) w.participants.length).round ∧
    (getDraftState w).current_pick = w.picks.length + 1 ∧
    w.picks.length + 1 ≤ w.participants.length * w.league.draft_rounds ∧
    (getDraftState w).current_participant_id =
      ((w.participants.find? (fun p => p.draft_position ==
          some (draftPos w.participants.length (w.picks.length + 1)))).map
        (fun p => p.id)).getD "" := by
  unfold getDraftState at h ⊢
  by_cases hc : w.participants.length * w.league.draft_rounds < w.picks.length + 1
  · rw [if_pos hc] at h
    cases h
  · rw [if_neg hc] at h ⊢
    exact ⟨rfl, rfl, by omega, rfl⟩

/-- When the draft is live and the participant-on-the-clock lookup succeeds,
the participant on the clock exists, with the snake draft position of the
current pick. -/
theorem onClock_exists (w : World)
    (hne : ∀ part ∈ w.participants, part.id ≠ "")
    (h : (getDraftState w).is_complete = false)
    (hsome : (FantasyParticipantRepo.getById w
      (getDraftState w).current_participant_id).isSome = true) :
    ∃ part ∈ w.participants,
      part.id = (getDraftState w).current_participant_id ∧
      part.draft_position = some (draftPos w.participants.length (w.picks.length + 1)) := by
  have hstate := getDraftState_not_complete w h
  cases hfind : w.participants.find? (fun p => p.draft_position ==
      some (draftPos w.participants.length (w.picks.length + 1))) with
  | none =>
    have hpid : (getDraftState w).current_participant_id = "" := by
      rw [hstate.2.2.2, hfind]
      rfl
    rw [hpid] at hsome
    unfold FantasyParticipantRepo.getById at hsome
    obtain ⟨part, hmem, hpe⟩ := List.find?_isSome.mp hsome
    exact absurd (by simpa using hpe) (hne part hmem)
  | some part =>
    have hpid : (getDraftState w).current_participant_id = part.id := by
      rw [hstate.2.2.2, hfind]
      rfl
    have hpos : part.draft_position =
        some (draftPos w.participants.length (w.picks.length + 1)) := by
      have := List.find?_some hfind
      simpa using this
    exact ⟨part, List.mem_of_find?_eq_some hfind, hpid.symm, hpos⟩

/-- Ids are unique in the available pool (it is a double filter of the store). -/
theorem availablePool_ids_nodup (w : World)
    (hpros : (w.pros.map (fun p => p.id)).Nodup) :
    ((availablePool w).map (fun p => p.id)).Nodup := by
  unfold availablePool ProRepo.getActive
  exact List.Sublist.nodup
    (List.Sublist.map _ ((List.filter_sublist _).trans (List.filter_sublist _))) hpros

/-- Every committing step is a `commitPick` of a pro from the filtered pool of
the participant on the clock. -/
theorem commit_dissect (w w2 : World)
    (hpros : (w.pros.map (fun p => p.id)).Nodup) (hc : Commit w w2) :
    ∃ pid x a,
      (getDraftState w).is_complete = false ∧
      pid = (getDraftState w).current_participant_id ∧
      (FantasyParticipantRepo.getById w pid).isSome = true ∧
      x ∈ availablePool w ∧
      x ∈ filterAvailablePros (availablePool w) (rosterOf w pid)
        (getDraftState w).current_round 2 2 ∧
      w2 = commitPick w pid x.id a := by
  cases hc with
  | make pid proId uid h =>
    obtain ⟨h1, h2f, h3, ⟨part, hp, h4⟩, ⟨xa, hxa, hxaid⟩, ⟨xf, hxf, hxfid⟩, hw2⟩ :=
      makeDraftPick_ok_inv w pid proId uid w2 h
    have hxf_av : xf ∈ availablePool w :=
      filterAvailablePros_subset (availablePool w) (rosterOf w pid)
        (getDraftState w).current_round 2 2 hxf
    have hxeq : xa = xf :=
      List.inj_on_of_nodup_map (availablePool_ids_nodup w hpros) hxa hxf_av
        (by rw [hxaid, hxfid])
    refine ⟨pid, xa, false, h2f, h3.symm, by rw [hp]; rfl, hxa, by rw [hxeq]; exact hxf, ?_⟩
    rw [hw2, hxaid]
  | auto h =>
    obtain ⟨h2f, hsome, x, hrec, hw2⟩ := autoPickOnTimeout_ok_inv w w2 h
    have hxf : x ∈ filterAvailablePros (availablePool w)
        (rosterOf w (getDraftState w).current_participant_id)
        (getDraftState w).current_round 2 2 :=
      getRecommendation_mem _ _ _ x hrec
    exact ⟨(getDraftState w).current_participant_id, x, true, h2f, rfl, hsome,
      filterAvailablePros_subset _ _ _ _ _ hxf, hxf, hw2⟩

theorem commitPick_teamProIds (w : World) (pid proId : String) (a : Bool)
    (hIdNodup : (w.teams.map (fun t => t.id)).Nodup)
    (hIdLt : ∀ t ∈ w.teams, t.id < w.nextTeamId) :
    teamProIds (commitPick w pid proId a) pid = teamProIds w pid ++ [proId] ∧
    (∀ q, q ≠ pid → teamProIds (commitPick w pid proId a) q = teamProIds w q) := by
  unfold commitPick
  exact addPro_teamProIds _ pid proId hIdNodup hIdLt

theorem commitPick_teams_wf (w : World) (pid proId : String) (a : Bool)
    (hPartNodup : (w.teams.map (fun t => t.participant_id)).Nodup)
    (hIdNodup : (w.teams.map (fun t => t.id)).Nodup)
    (hIdLt : ∀ t ∈ w.teams, t.id < w.nextTeamId) :
    ((commitPick w pid proId a).teams.map (fun t => t.participant_id)).Nodup ∧
    ((commitPick w pid proId a).teams.map (fun t => t.id)).Nodup ∧
    (∀ t ∈ (commitPick w pid proId a).teams,
      t.id < (commitPick w pid proId a).nextTeamId) := by
  unfold commitPick
  exact addPro_teams_wf _ pid proId hPartNodup hIdNodup hIdLt

theorem picksBy_commit (w : World) (pid proId : String) (a : Bool) :
    picksBy (commitPick w pid proId a) pid =
      picksBy w pid ++ [committedPick w pid proId a] ∧
    (∀ q, q ≠ pid → picksBy (commitPick w pid proId a) q = picksBy w q) := by
  constructor
  · unfold picksBy
    rw [commitPick_picks, List.filter_append]
    have : ([committedPick w pid proId a].filter (fun k => k.participant_id == pid)) =
        [committedPick w pid proId a] := by
      rw [List.filter_cons]
      rw [if_pos (by unfold committedPick; simp)]
      rfl
    rw [this]
  · intro q hq
    unfold picksBy
    rw [commitPick_picks, List.filter_append]
    have : ([committedPick w pid proId a].filter (fun k => k.participant_id == q)) = [] := by
      rw [List.filter_cons]
      rw [if_neg (by unfold committedPick; simpa using fun hcon => hq hcon.symm)]
      rfl
    rw [this, List.append_nil]

/-- The roster is no longer than the team's id list. -/
theorem rosterOf_length_le (w : World) (pid : String)
    (hpros : (w.pros.map (fun p => p.id)).Nodup) :
    (rosterOf w pid).length ≤ (teamProIds w pid).length := by
  rw [rosterOf_eq_filter]
  have h1 : ((w.pros.filter (fun p => (teamProIds w pid).contains p.id)).map
      (fun p => p.id)).Nodup :=
    List.Sublist.nodup (List.Sublist.map _ (List.filter_sublist _)) hpros
  have h2 : ((w.pros.filter (fun p => (teamProIds w pid).contains p.id)).map
      (fun p => p.id)) ⊆ teamProIds w pid := by
    intro s hs
    obtain ⟨p, hp, hps⟩ := List.mem_map.mp hs
    have hmem := List.of_mem_filter hp
    rw [List.contains, List.elem_eq_mem] at hmem
    rw [← hps]
    exact of_decide_eq_true hmem
  calc (w.pros.filter (fun p => (teamProIds w pid).contains p.id)).length
      = ((w.pros.filter (fun p => (teamProIds w pid).contains p.id)).map
          (fun p => p.id)).length := (List.length_map _ _).symm
    _ ≤ (teamProIds w pid).length := nodup_length_le_of_subset h1 h2

/-- Roster gender counts after a commit: the committed pro's gender count of the
committing participant goes up by one, everything else is untouched. -/
theorem commit_roster_counts (w : World) (pid : String) (a : Bool) (x : Pro)
    (hpros : (w.pros.map (fun p => p.id)).Nodup)
    (hx : x ∈ availablePool w)
    (hIdNodup : (w.teams.map (fun t => t.id)).Nodup)
    (hIdLt : ∀ t ∈ w.teams, t.id < w.nextTeamId)
    (hTeamPicks : ∀ q, teamProIds w q = (picksBy w q).map (fun k => k.pro_id)) :
    maleCountOf (commitPick w pid x.id a) pid =
      maleCountOf w pid + (if x.isMale then 1 else 0) ∧
    femaleCountOf (commitPick w pid x.id a) pid =
      femaleCountOf w pid + (if x.isFemale then 1 else 0) ∧
    (∀ q, q ≠ pid → maleCountOf (commitPick w pid x.id a) q = maleCountOf w q ∧
      femaleCountOf (commitPick w pid x.id a) q = femaleCountOf w q) := by
  have hx_pros : x ∈ w.pros := by
    unfold availablePool ProRepo.getActive at hx
    exact List.mem_of_mem_filter (List.mem_of_mem_filter hx)
  have hx_not_drafted := mem_availablePool_not_drafted w x hx
  have hx_not_in_ids : ¬ x.id ∈ teamProIds w pid := by
    intro hcon
    rw [hTeamPicks pid] at hcon
    obtain ⟨k, hk, hkid⟩ := List.mem_map.mp hcon
    apply hx_not_drafted
    rw [← hkid]
    exact List.mem_map_of_mem _ (List.mem_of_mem_filter hk)
  obtain ⟨hids_pid, hids_other⟩ := commitPick_teamProIds w pid x.id a hIdNodup hIdLt
  have hperm : (rosterOf (commitPick w pid x.id a) pid).Perm (x :: rosterOf w pid) := by
    rw [rosterOf_eq_filter, rosterOf_eq_filter, commitPick_pros, hids_pid]
    exact filter_ids_append_perm w.pros (teamProIds w pid) x hpros hx_pros hx_not_in_ids
  have hcnt : ∀ p : Pro → Bool,
      ((rosterOf (commitPick w pid x.id a) pid).filter p).length =
        ((rosterOf w pid).filter p).length + (if p x then 1 else 0) := by
    intro p
    rw [← List.countP_eq_length_filter, ← List.countP_eq_length_filter,
      hperm.countP_eq, List.countP_cons]
  refine ⟨hcnt _, hcnt _, ?_⟩
  intro q hq
  have hsame : rosterOf (commitPick w pid x.id a) q = rosterOf w q := by
    rw [rosterOf_eq_filter, rosterOf_eq_filter, commitPick_pros, hids_other q hq]
  unfold maleCountOf femaleCountOf
  rw [hsame]
  exact ⟨rfl, rfl⟩

/-- One committed pick preserves the invariant, and never adds to an
already-capped gender of any roster. -/
theorem commit_step_master (w w2 : World) (inv : Inv w) (hc : Commit w w2) :
    Inv w2 ∧ ∀ pid,
      (2 ≤ maleCountOf w pid → maleCountOf w2 pid = maleCountOf w pid) ∧
      (2 ≤ femaleCountOf w pid → femaleCountOf w2 pid = femaleCountOf w pid) := by
  obtain ⟨pid, x, a, hnc, hpid, hsome, hxav, hxF, hw2⟩ := commit_dissect w w2 inv.prosNodup hc
  subst hw2
  have hstate := getDraftState_not_complete w hnc
  have hpc : 1 ≤ w.participants.length := by
    rcases Nat.eq_zero_or_pos w.participants.length with h0 | h1
    · exfalso
      have h3 := hstate.2.2.1
      rw [h0, Nat.zero_mul] at h3
      omega
    · exact h1
  rw [hpid] at hsome
  obtain ⟨part, hpartmem, hpartid, hpartpos⟩ :=
    onClock_exists w inv.partsNoEmptyId hnc hsome
  have hpart_pid : part.id = pid := by
    rw [hpartid, ← hpid]
  -- counting: the participant's picks so far fill at most the earlier rounds
  have hcount : (picksBy w pid).length ≤
      slotCount (draftPos w.participants.length (w.picks.length + 1))
        w.participants.length w.picks.length := by
    unfold picksBy slotCount
    rw [← List.countP_eq_length_filter]
    apply countP_le_countP_range'
    intro i hi hp
    obtain ⟨part', hpm', hid', hpos'⟩ := inv.slotOk i hi
    have hpid' : part'.id = pid := by
      rw [hid']
      simpa [beq_iff_eq] using hp
    have hpp : part' = part :=
      List.inj_on_of_nodup_map inv.partsNodup hpm' hpartmem (by rw [hpid', hpart_pid])
    rw [hpp, hpartpos] at hpos'
    have hdp : draftPos w.participants.length (i + 1) =
        draftPos w.participants.length (w.picks.length + 1) :=
      (Option.some.inj hpos').symm
    have harg : 1 + i = i + 1 := by omega
    show (draftPos w.participants.length (1 + i) ==
      draftPos w.participants.length (w.picks.length + 1)) = true
    rw [harg, hdp]
    exact beq_self_eq_true _
  have hslot := slotCount_before_pick w.participants.length (w.picks.length + 1) hpc
    (by omega)
  rw [Nat.add_sub_cancel] at hslot
  have hRlen : (rosterOf w pid).length ≤ (getDraftState w).current_round - 1 := by
    have h1 := rosterOf_length_le w pid inv.prosNodup
    have h2 : (teamProIds w pid).length = (picksBy w pid).length := by
      rw [inv.teamPicks pid, List.length_map]
    rw [hstate.1]
    omega
  have hr4 : (getDraftState w).current_round ≤ 4 := by
    have hle : (getDraftState w).current_round ≤ w.league.draft_rounds := by
      rw [hstate.1]
      show (w.picks.length + 1 + w.participants.length - 1) / w.participants.length ≤
        w.league.draft_rounds
      have harg : w.picks.length + 1 + w.participants.length - 1 =
          w.picks.length + w.participants.length := by omega
      rw [harg]
      have hmul : w.participants.length * w.league.draft_rounds =
          w.league.draft_rounds * w.participants.length := Nat.mul_comm _ _
      have hlt : w.picks.length + w.participants.length <
          (w.league.draft_rounds + 1) * w.participants.length := by
        rw [Nat.succ_mul]
        have := hstate.2.2.1
        omega
      have hdiv := (Nat.div_lt_iff_lt_mul (by omega : 0 < w.participants.length)).mpr hlt
      omega
    exact le_trans hle inv.roundsLe
  have hsum : maleCountOf w pid + femaleCountOf w pid = (rosterOf w pid).length :=
    maleCount_add_femaleCount _
  have hmc_le : maleCountOf w pid ≤ (rosterOf w pid).length := by
    unfold maleCountOf
    exact List.length_filter_le _ _
  have hfc_le : femaleCountOf w pid ≤ (rosterOf w pid).length := by
    unfold femaleCountOf
    exact List.length_filter_le _ _
  -- the committed pro cannot extend a capped gender
  have hxgender :
      (2 ≤ maleCountOf w pid → x.isMale = false) ∧
      (2 ≤ femaleCountOf w pid → x.isFemale = false) := by
    constructor
    · intro hmc2
      have hr3 : 2 < (getDraftState w).current_round := by omega
      unfold filterAvailablePros at hxF
      rw [if_neg (by omega)] at hxF
      have hmcond : ((rosterOf w pid).filter (fun p => p.isMale)).length ≥ 2 := hmc2
      rw [if_pos hmcond] at hxF
      exact not_isMale_of_isFemale (List.of_mem_filter hxF)
    · intro hfc2
      have hr3 : 2 < (getDraftState w).current_round := by omega
      have hmlt : ¬ ((rosterOf w pid).filter (fun p => p.isMale)).length ≥ 2 := by
        show ¬ 2 ≤ maleCountOf w pid
        omega
      unfold filterAvailablePros at hxF
      rw [if_neg (by omega), if_neg hmlt,
        if_pos (show ((rosterOf w pid).filter (fun p => p.isFemale)).length ≥ 2 from hfc2)]
        at hxF
      exact not_isFemale_of_isMale (List.of_mem_filter hxF)
  obtain ⟨hmcx, hfcx, hother⟩ := commit_roster_counts w pid a x inv.prosNodup hxav
    inv.teamsIdNodup inv.teamsIdLt inv.teamPicks
  obtain ⟨hids_pid, hids_other⟩ :=
    commitPick_teamProIds w pid x.id a inv.teamsIdNodup inv.teamsIdLt
  obtain ⟨hpicks_pid, hpicks_other⟩ := picksBy_commit w pid x.id a
  obtain ⟨hwf1, hwf2, hwf3⟩ :=
    commitPick_teams_wf w pid x.id a inv.teamsPartNodup inv.teamsIdNodup inv.teamsIdLt
  -- new caps
  have hcaps2 : ∀ q, maleCountOf (commitPick w pid x.id a) q ≤ 2 ∧
      femaleCountOf (commitPick w pid x.id a) q ≤ 2 := by
    intro q
    by_cases hq : q = pid
    · subst hq
      constructor
      · rw [hmcx]
        by_cases hxm : x.isMale = true
        · have hlt : maleCountOf w q < 2 := by
            by_contra hcon
            push_neg at hcon
            rw [hxgender.1 hcon] at hxm
            cases hxm
          rw [hxm]
          simp only [if_true]
          omega
        · rw [Bool.not_eq_true] at hxm
          rw [hxm]
          simp only [Bool.false_eq_true, if_false]
          have := (inv.capsOk q).1
          omega
      · rw [hfcx]
        by_cases hxf : x.isFemale = true
        · have hlt : femaleCountOf w q < 2 := by
            by_contra hcon
            push_neg at hcon
            rw [hxgender.2 hcon] at hxf
            cases hxf
          rw [hxf]
          simp only [if_true]
          omega
        · rw [Bool.not_eq_true] at hxf
          rw [hxf]
          simp only [Bool.false_eq_true, if_false]
          have := (inv.capsOk q).2
          omega
    · rw [(hother q hq).1, (hother q hq).2]
      exact inv.capsOk q
  -- monotonicity of capped genders
  have hmono : ∀ q,
      (2 ≤ maleCountOf w q → maleCountOf (commitPick w pid x.id a) q = maleCountOf w q) ∧
      (2 ≤ femaleCountOf w q →
        femaleCountOf (commitPick w pid x.id a) q = femaleCountOf w q) := by
    intro q
    by_cases hq : q = pid
    · subst hq
      constructor
      · intro h2
        rw [hmcx, hxgender.1 h2]
        simp
      · intro h2
        rw [hfcx, hxgender.2 h2]
        simp
    · exact ⟨fun _ => (hother q hq).1, fun _ => (hother q hq).2⟩
  refine ⟨⟨?_, ?_, ?_, ?_, hwf1, hwf2, hwf3, ?_, ?_, hcaps2⟩, hmono⟩
  · rw [commitPick_league]
    exact inv.roundsLe
  · rw [commitPick_pros]
    exact inv.prosNodup
  · rw [commitPick_participants]
    exact inv.partsNodup
  · rw [commitPick_participants]
    exact inv.partsNoEmptyId
  · -- teamPicks
    intro q
    by_cases hq : q = pid
    · subst hq
      rw [hids_pid, hpicks_pid, List.map_append, inv.teamPicks q]
      rfl
    · rw [hids_other q hq, hpicks_other q hq, inv.teamPicks q]
  · -- slotOk
    intro i hi
    have hlen : (commitPick w pid x.id a).picks.length = w.picks.length + 1 := by
      rw [commitPick_picks, List.length_append]
      rfl
    have hparts_eq : (commitPick w pid x.id a).participants = w.participants :=
      commitPick_participants w pid x.id a
    by_cases hilt : i < w.picks.length
    · obtain ⟨part', hpm', hid', hpos'⟩ := inv.slotOk i hilt
      refine ⟨part', by rw [hparts_eq]; exact hpm', ?_, by rw [hparts_eq]; exact hpos'⟩
      rw [hid']
      congr 1
      rw [List.get_eq_getElem, List.get_eq_getElem]
      have hp2 : (commitPick w pid x.id a).picks = w.picks ++ [committedPick w pid x.id a] :=
        commitPick_picks w pid x.id a
      simp only [hp2]
      exact (List.getElem_append_left hilt).symm
    · have hieq : i = w.picks.length := by
        rw [hlen] at hi
        omega
      refine ⟨part, by rw [hparts_eq]; exact hpartmem, ?_, ?_⟩
      · rw [List.get_eq_getElem]
        have hp2 : (commitPick w pid x.id a).picks =
            w.picks ++ [committedPick w pid x.id a] := commitPick_picks w pid x.id a
        simp only [hp2]
        rw [List.getElem_append_right (by omega)]
        subst hieq
        simp only [Nat.sub_self]
        rw [hpart_pid]
        rfl
      · rw [hparts_eq, hieq]
        exact hpartpos

/-- The invariant holds along every committed-pick sequence. -/
theorem reachable_inv (w0 w : World) (h0 : Inv w0) (hr : Reachable w0 w) : Inv w := by
  induction hr with
  | refl => exact h0
  | tail _ hstep ih => exact (commit_step_master _ _ ih hstep).1

/-- The invariant holds at a clean four-round start. -/
theorem inv_initial (w0 : World) (hpicks0 : w0.picks = []) (hteams0 : w0.teams = [])
    (hwf : WorldWF w0) (hrounds : w0.league.draft_rounds ≤ 4) : Inv w0 := by
  refine ⟨hrounds, hwf.prosNodup, hwf.partsNodup, hwf.partsNoEmptyId, ?_, ?_, ?_, ?_, ?_, ?_⟩
  · rw [hteams0]
    exact List.nodup_nil
  · rw [hteams0]
    exact List.nodup_nil
  · intro t ht
    rw [hteams0] at ht
    cases ht
  · intro q
    unfold teamProIds FantasyTeamRepo.getByParticipantId picksBy
    rw [hteams0, hpicks0]
    rfl
  · intro i hi
    rw [hpicks0] at hi
    cases hi
  · intro q
    unfold maleCountOf femaleCountOf rosterOf getFantasyTeamPros
      FantasyTeamRepo.getByParticipantId
    rw [hteams0]
    exact ⟨Nat.zero_le 2, Nat.zero_le 2⟩

/-- Claim C3 (amended): in a draft whose league is configured with at most 4
rounds (the default; the schema allows up to 10, and the counterexample shows
the claim fails at 5), starting from a clean world — no picks, no teams, unique
non-empty record ids — every sequence of committed picks (`makeDraftPick` or
`autoPickOnTimeout`) keeps every roster at ≤ 2 males and ≤ 2 females, and once
a gender count of a roster reaches 2 no later committed pick adds a player of
that gender to it. -/
theorem roster_caps_invariant (w0 w w2 : World)
    (hpicks0 : w0.picks = []) (hteams0 : w0.teams = []) (hwf : WorldWF w0)
    (hrounds : w0.league.draft_rounds ≤ 4) (hreach : Reachable w0 w) :
    (∀ pid, maleCountOf w pid ≤ 2 ∧ femaleCountOf w pid ≤ 2) ∧
    (Commit w w2 → ∀ pid,
      (2 ≤ maleCountOf w pid → maleCountOf w2 pid = maleCountOf w pid) ∧
      (2 ≤ femaleCountOf w pid → femaleCountOf w2 pid = femaleCountOf w pid)) := by
  have hinv := reachable_inv w0 w (inv_initial w0 hpicks0 hteams0 hwf hrounds) hreach
  exact ⟨hinv.capsOk, fun hc => (commit_step_master w w2 hinv hc).2⟩

/-- Witness for `roster_caps_invariant`: after one committed pick from the
clean two-round world of the idempotency scenario, the roster caps hold. -/
theorem roster_caps_invariant_witness :
    maleCountOf idempotencyWorld2 "P1" ≤ 2 ∧ femaleCountOf idempotencyWorld2 "P1" ≤ 2 :=
  (roster_caps_invariant idempotencyWorld idempotencyWorld2 idempotencyWorld
    rfl rfl ⟨by decide, by decide, by decide⟩ (by decide)
    (Relation.ReflTransGen.single
      (Commit.make idempotencyWorld idempotencyWorld2 "P1" "m1" "U1" (by decide)))).1 "P1"

end FantasyDraft

